import Mathlib

/-! vpp-agent: binary API message declarations (dhcp, memif) and their wire codec

The Go sources `plugins/vpp/binapi/vpp1908/dhcp/dhcp.ba.go` and
`plugins/vpp/binapi/vpp1908/memif/memif.ba.go` declare message structs whose
wire layout is given by the Go field types and `struc` tags.  The struct
declarations, the three methods of every message, `init` and `AllMessages` are
embedded here as data and functions.  The codec and the registry that consume
them are not part of these sources and are modelled from the specification.
-/

/-! ## Struct declarations as data -/

/-- Integer field types used by the declarations: `uint8`, `uint16`, `uint32`, `int32`. -/
inductive ScalarKind
  | U8 | U16 | U32 | I32
  deriving DecidableEq, Repr

/-- Width of an integer type in bytes. -/
def ScalarKind.width : ScalarKind → Nat
  | .U8 => 1
  | .U16 => 2
  | .U32 => 4
  | .I32 => 4

/-- Whether the integer type is signed (`int32`). -/
def ScalarKind.signed : ScalarKind → Bool
  | .I32 => true
  | _ => false

/-- The `struc:"..."` tag of a field: absent, `[n]byte`, or `sizeof=<field>`. -/
inductive StrucTag
  | untagged
  | array (n : Nat)
  | sizeof (field : String)
  deriving DecidableEq, Repr

mutual
/-- Go field types occurring in the declarations. -/
inductive GoType
  | scalar (k : ScalarKind)
  | byteSlice
  | struct (name : String) (fields : List StructField)
  | slice (elem : GoType)
/-- One field of a Go struct: name, type, `struc` tag. -/
inductive StructField
  | mk (name : String) (type : GoType) (tag : StrucTag)
end

namespace GoType

/-- Go `uint8`. -/
abbrev uint8 : GoType := .scalar .U8
/-- Go `uint16`. -/
abbrev uint16 : GoType := .scalar .U16
/-- Go `uint32`. -/
abbrev uint32 : GoType := .scalar .U32
/-- Go `int32`. -/
abbrev int32 : GoType := .scalar .I32

end GoType

/-- Name of a struct field. -/
def StructField.name : StructField → String
  | .mk n _ _ => n

/-- Go type of a struct field. -/
def StructField.type : StructField → GoType
  | .mk _ t _ => t

/-- The `struc` tag of a struct field. -/
def StructField.tag : StructField → StrucTag
  | .mk _ _ g => g

/-- The fields of a struct type. -/
def GoType.structFields : GoType → List StructField
  | .struct _ fs => fs
  | _ => []

/-- Whether the type is a slice of elements, a variable-length array. -/
def GoType.isSlice : GoType → Bool
  | .slice _ => true
  | _ => false

/-- Whether the tag is a fixed-length tag `[n]byte`. -/
def StrucTag.isArray : StrucTag → Bool
  | .array _ => true
  | _ => false

mutual
/-- Decidable equality of Go types. -/
def GoType.decEq : (a b : GoType) → Decidable (a = b)
  | .scalar k, .scalar k2 =>
    if h : k = k2 then isTrue (by rw [h]) else isFalse (fun h2 => h (by cases h2; rfl))
  | .byteSlice, .byteSlice => isTrue rfl
  | .struct n fs, .struct n2 fs2 =>
    if h : n = n2 then
      match StructField.decEqList fs fs2 with
      | isTrue h2 => isTrue (by rw [h, h2])
      | isFalse h2 => isFalse (fun h3 => h2 (by cases h3; rfl))
    else isFalse (fun h3 => h (by cases h3; rfl))
  | .slice t, .slice t2 =>
    match GoType.decEq t t2 with
    | isTrue h => isTrue (by rw [h])
    | isFalse h => isFalse (fun h3 => h (by cases h3; rfl))
  | .scalar _, .byteSlice => isFalse (fun h => by cases h)
  | .scalar _, .struct _ _ => isFalse (fun h => by cases h)
  | .scalar _, .slice _ => isFalse (fun h => by cases h)
  | .byteSlice, .scalar _ => isFalse (fun h => by cases h)
  | .byteSlice, .struct _ _ => isFalse (fun h => by cases h)
  | .byteSlice, .slice _ => isFalse (fun h => by cases h)
  | .struct _ _, .scalar _ => isFalse (fun h => by cases h)
  | .struct _ _, .byteSlice => isFalse (fun h => by cases h)
  | .struct _ _, .slice _ => isFalse (fun h => by cases h)
  | .slice _, .scalar _ => isFalse (fun h => by cases h)
  | .slice _, .byteSlice => isFalse (fun h => by cases h)
  | .slice _, .struct _ _ => isFalse (fun h => by cases h)
/-- Decidable equality of field lists. -/
def StructField.decEqList : (a b : List StructField) → Decidable (a = b)
  | [], [] => isTrue rfl
  | [], _ :: _ => isFalse (fun h => by cases h)
  | _ :: _, [] => isFalse (fun h => by cases h)
  | .mk n t g :: fs, .mk n2 t2 g2 :: fs2 =>
    if h : n = n2 ∧ g = g2 then
      match GoType.decEq t t2 with
      | isTrue h2 =>
        match StructField.decEqList fs fs2 with
        | isTrue h3 => isTrue (by rw [h.1, h.2, h2, h3])
        | isFalse h3 => isFalse (fun h4 => h3 (by cases h4; rfl))
      | isFalse h2 => isFalse (fun h4 => h2 (by cases h4; rfl))
    else isFalse (fun h4 => h (by cases h4; exact ⟨rfl, rfl⟩))
end

instance : DecidableEq GoType := GoType.decEq

instance : DecidableEq StructField := fun a b =>
  match a, b with
  | .mk n t g, .mk n2 t2 g2 =>
    if h : n = n2 ∧ t = t2 ∧ g = g2 then isTrue (by rw [h.1, h.2.1, h.2.2])
    else isFalse (fun h4 => h (by cases h4; exact ⟨rfl, rfl, rfl⟩))

namespace api

/-- Modelled from the spec: the message kinds of the `api` package, which is not
part of the sources; the spec gives the closed variant Request, Reply, Event. -/
inductive MessageType
  | RequestMessage
  | ReplyMessage
  | EventMessage
  deriving DecidableEq, Repr

/-- An `api.Message`: a Go message type (its name and declared fields) together
with the results of its three methods. -/
structure Message where
  typeName : String
  fields : List StructField
  GetMessageName : String
  GetCrcString : String
  GetMessageType : MessageType
  deriving DecidableEq

/-- The Go struct type of a message. -/
def Message.goType (m : Message) : GoType := .struct m.typeName m.fields

/-- Modelled from the spec: the registry error kind of section 7. -/
inductive RegistryError
  | SchemaConflict
  deriving DecidableEq, Repr

/-- Modelled from the spec: the registry, a mapping from name to message schema,
kept in registration order. -/
abbrev Registry := List (String × Message)

/-- Modelled from the spec: `register(schema)` of section 4.2.  A name not yet
present is added; the same name with the same CRC succeeds and changes nothing;
the same name with a different CRC is `SchemaConflict`. -/
def register (r : Registry) (name : String) (x : Message) : Except RegistryError Registry :=
  match r.lookup name with
  | none => .ok (r ++ [(name, x)])
  | some y => if y.GetCrcString = x.GetCrcString then .ok r else .error .SchemaConflict

/-- Modelled from the spec: `api.RegisterMessage(x, name)`, which is not part of
the sources, registers the message `x` under the name passed to it. -/
def RegisterMessage (x : Message) (name : String) (r : Registry) :
    Except RegistryError Registry :=
  register r name x

end api

/-! ## Module dhcp -/

namespace dhcp

/-- ModuleName is the name of this module. -/
def ModuleName : String := "dhcp"

/-- APIVersion is the API version of this module. -/
def APIVersion : String := "2.0.1"

/-- VersionCrc is the CRC of this module. -/
def VersionCrc : Nat := 0x186df3d5

/-- The package documentation: "The dhcp module consists of: 6 types". -/
def docTypes : Nat := 6

/-- The package documentation: "The dhcp module consists of: 25 messages". -/
def docMessages : Nat := 25

/-- The package documentation: "The dhcp module consists of: 11 services". -/
def docServices : Nat := 11

/-- Go type `DHCP6AddressInfo`, VPP binary API type 'dhcp6_address_info'. -/
def DHCP6AddressInfo : GoType := .struct "DHCP6AddressInfo" [
    ⟨"Address", .byteSlice, .array 16⟩,
    ⟨"ValidTime", .uint32, .untagged⟩,
    ⟨"PreferredTime", .uint32, .untagged⟩]

/-- Go type `DHCP6PdPrefixInfo`, VPP binary API type 'dhcp6_pd_prefix_info'. -/
def DHCP6PdPrefixInfo : GoType := .struct "DHCP6PdPrefixInfo" [
    ⟨"Prefix", .byteSlice, .array 16⟩,
    ⟨"PrefixLength", .uint8, .untagged⟩,
    ⟨"ValidTime", .uint32, .untagged⟩,
    ⟨"PreferredTime", .uint32, .untagged⟩]

/-- Go type `DHCPClient`, VPP binary API type 'dhcp_client'. -/
def DHCPClient : GoType := .struct "DHCPClient" [
    ⟨"SwIfIndex", .uint32, .untagged⟩,
    ⟨"Hostname", .byteSlice, .array 64⟩,
    ⟨"ID", .byteSlice, .array 64⟩,
    ⟨"WantDHCPEvent", .uint8, .untagged⟩,
    ⟨"SetBroadcastFlag", .uint8, .untagged⟩,
    ⟨"PID", .uint32, .untagged⟩]

/-- Go type `DomainServer`, VPP binary API type 'domain_server'. -/
def DomainServer : GoType := .struct "DomainServer" [
    ⟨"Address", .byteSlice, .array 16⟩]

/-- Go type `DHCPLease`, VPP binary API type 'dhcp_lease'. -/
def DHCPLease : GoType := .struct "DHCPLease" [
    ⟨"SwIfIndex", .uint32, .untagged⟩,
    ⟨"State", .uint8, .untagged⟩,
    ⟨"Hostname", .byteSlice, .array 64⟩,
    ⟨"IsIPv6", .uint8, .untagged⟩,
    ⟨"MaskWidth", .uint8, .untagged⟩,
    ⟨"HostAddress", .byteSlice, .array 16⟩,
    ⟨"RouterAddress", .byteSlice, .array 16⟩,
    ⟨"HostMac", .byteSlice, .array 6⟩,
    ⟨"Count", .uint8, .sizeof "DomainServer"⟩,
    ⟨"DomainServer", .slice DomainServer, .untagged⟩]

/-- Go type `DHCPServer`, VPP binary API type 'dhcp_server'. -/
def DHCPServer : GoType := .struct "DHCPServer" [
    ⟨"ServerVrfID", .uint32, .untagged⟩,
    ⟨"DHCPServer", .byteSlice, .array 16⟩]

/-- Go type `DHCP6ClientsEnableDisable`, VPP binary API message 'dhcp6_clients_enable_disable'. -/
def DHCP6ClientsEnableDisable : api.Message where
  typeName := "DHCP6ClientsEnableDisable"
  fields := [
    ⟨"Enable", .uint8, .untagged⟩]
  GetMessageName := "dhcp6_clients_enable_disable"
  GetCrcString := "8050327d"
  GetMessageType := .RequestMessage

/-- Go type `DHCP6ClientsEnableDisableReply`, VPP binary API message 'dhcp6_clients_enable_disable_reply'. -/
def DHCP6ClientsEnableDisableReply : api.Message where
  typeName := "DHCP6ClientsEnableDisableReply"
  fields := [
    ⟨"Retval", .int32, .untagged⟩]
  GetMessageName := "dhcp6_clients_enable_disable_reply"
  GetCrcString := "e8d4e804"
  GetMessageType := .ReplyMessage

/-- Go type `DHCP6DuidLlSet`, VPP binary API message 'dhcp6_duid_ll_set'. -/
def DHCP6DuidLlSet : api.Message where
  typeName := "DHCP6DuidLlSet"
  fields := [
    ⟨"DuidLl", .byteSlice, .array 10⟩]
  GetMessageName := "dhcp6_duid_ll_set"
  GetCrcString := "0f6ca323"
  GetMessageType := .RequestMessage

/-- Go type `DHCP6DuidLlSetReply`, VPP binary API message 'dhcp6_duid_ll_set_reply'. -/
def DHCP6DuidLlSetReply : api.Message where
  typeName := "DHCP6DuidLlSetReply"
  fields := [
    ⟨"Retval", .int32, .untagged⟩]
  GetMessageName := "dhcp6_duid_ll_set_reply"
  GetCrcString := "e8d4e804"
  GetMessageType := .ReplyMessage

/-- Go type `DHCP6PdReplyEvent`, VPP binary API message 'dhcp6_pd_reply_event'. -/
def DHCP6PdReplyEvent : api.Message where
  typeName := "DHCP6PdReplyEvent"
  fields := [
    ⟨"PID", .uint32, .untagged⟩,
    ⟨"SwIfIndex", .uint32, .untagged⟩,
    ⟨"ServerIndex", .uint32, .untagged⟩,
    ⟨"MsgType", .uint8, .untagged⟩,
    ⟨"T1", .uint32, .untagged⟩,
    ⟨"T2", .uint32, .untagged⟩,
    ⟨"InnerStatusCode", .uint16, .untagged⟩,
    ⟨"StatusCode", .uint16, .untagged⟩,
    ⟨"Preference", .uint8, .untagged⟩,
    ⟨"NPrefixes", .uint32, .sizeof "Prefixes"⟩,
    ⟨"Prefixes", .slice DHCP6PdPrefixInfo, .untagged⟩]
  GetMessageName := "dhcp6_pd_reply_event"
  GetCrcString := "0e53217a"
  GetMessageType := .EventMessage

/-- Go type `DHCP6PdSendClientMessage`, VPP binary API message 'dhcp6_pd_send_client_message'. -/
def DHCP6PdSendClientMessage : api.Message where
  typeName := "DHCP6PdSendClientMessage"
  fields := [
    ⟨"SwIfIndex", .uint32, .untagged⟩,
    ⟨"ServerIndex", .uint32, .untagged⟩,
    ⟨"Irt", .uint32, .untagged⟩,
    ⟨"Mrt", .uint32, .untagged⟩,
    ⟨"Mrc", .uint32, .untagged⟩,
    ⟨"Mrd", .uint32, .untagged⟩,
    ⟨"Stop", .uint8, .untagged⟩,
    ⟨"MsgType", .uint8, .untagged⟩,
    ⟨"T1", .uint32, .untagged⟩,
    ⟨"T2", .uint32, .untagged⟩,
    ⟨"NPrefixes", .uint32, .sizeof "Prefixes"⟩,
    ⟨"Prefixes", .slice DHCP6PdPrefixInfo, .untagged⟩]
  GetMessageName := "dhcp6_pd_send_client_message"
  GetCrcString := "dadbfe97"
  GetMessageType := .RequestMessage

/-- Go type `DHCP6PdSendClientMessageReply`, VPP binary API message 'dhcp6_pd_send_client_message_reply'. -/
def DHCP6PdSendClientMessageReply : api.Message where
  typeName := "DHCP6PdSendClientMessageReply"
  fields := [
    ⟨"Retval", .int32, .untagged⟩]
  GetMessageName := "dhcp6_pd_send_client_message_reply"
  GetCrcString := "e8d4e804"
  GetMessageType := .ReplyMessage

/-- Go type `DHCP6ReplyEvent`, VPP binary API message 'dhcp6_reply_event'. -/
def DHCP6ReplyEvent : api.Message where
  typeName := "DHCP6ReplyEvent"
  fields := [
    ⟨"PID", .uint32, .untagged⟩,
    ⟨"SwIfIndex", .uint32, .untagged⟩,
    ⟨"ServerIndex", .uint32, .untagged⟩,
    ⟨"MsgType", .uint8, .untagged⟩,
    ⟨"T1", .uint32, .untagged⟩,
    ⟨"T2", .uint32, .untagged⟩,
    ⟨"InnerStatusCode", .uint16, .untagged⟩,
    ⟨"StatusCode", .uint16, .untagged⟩,
    ⟨"Preference", .uint8, .untagged⟩,
    ⟨"NAddresses", .uint32, .sizeof "Addresses"⟩,
    ⟨"Addresses", .slice DHCP6AddressInfo, .untagged⟩]
  GetMessageName := "dhcp6_reply_event"
  GetCrcString := "8a34e0f5"
  GetMessageType := .EventMessage

/-- Go type `DHCP6SendClientMessage`, VPP binary API message 'dhcp6_send_client_message'. -/
def DHCP6SendClientMessage : api.Message where
  typeName := "DHCP6SendClientMessage"
  fields := [
    ⟨"SwIfIndex", .uint32, .untagged⟩,
    ⟨"ServerIndex", .uint32, .untagged⟩,
    ⟨"Irt", .uint32, .untagged⟩,
    ⟨"Mrt", .uint32, .untagged⟩,
    ⟨"Mrc", .uint32, .untagged⟩,
    ⟨"Mrd", .uint32, .untagged⟩,
    ⟨"Stop", .uint8, .untagged⟩,
    ⟨"MsgType", .uint8, .untagged⟩,
    ⟨"T1", .uint32, .untagged⟩,
    ⟨"T2", .uint32, .untagged⟩,
    ⟨"NAddresses", .uint32, .sizeof "Addresses"⟩,
    ⟨"Addresses", .slice DHCP6AddressInfo, .untagged⟩]
  GetMessageName := "dhcp6_send_client_message"
  GetCrcString := "993f872f"
  GetMessageType := .RequestMessage

/-- Go type `DHCP6SendClientMessageReply`, VPP binary API message 'dhcp6_send_client_message_reply'. -/
def DHCP6SendClientMessageReply : api.Message where
  typeName := "DHCP6SendClientMessageReply"
  fields := [
    ⟨"Retval", .int32, .untagged⟩]
  GetMessageName := "dhcp6_send_client_message_reply"
  GetCrcString := "e8d4e804"
  GetMessageType := .ReplyMessage

/-- Go type `DHCPClientConfig`, VPP binary API message 'dhcp_client_config'. -/
def DHCPClientConfig : api.Message where
  typeName := "DHCPClientConfig"
  fields := [
    ⟨"IsAdd", .uint8, .untagged⟩,
    ⟨"Client", DHCPClient, .untagged⟩]
  GetMessageName := "dhcp_client_config"
  GetCrcString := "48e58749"
  GetMessageType := .RequestMessage

/-- Go type `DHCPClientConfigReply`, VPP binary API message 'dhcp_client_config_reply'. -/
def DHCPClientConfigReply : api.Message where
  typeName := "DHCPClientConfigReply"
  fields := [
    ⟨"Retval", .int32, .untagged⟩]
  GetMessageName := "dhcp_client_config_reply"
  GetCrcString := "e8d4e804"
  GetMessageType := .ReplyMessage

/-- Go type `DHCPClientDetails`, VPP binary API message 'dhcp_client_details'. -/
def DHCPClientDetails : api.Message where
  typeName := "DHCPClientDetails"
  fields := [
    ⟨"Client", DHCPClient, .untagged⟩,
    ⟨"Lease", DHCPLease, .untagged⟩]
  GetMessageName := "dhcp_client_details"
  GetCrcString := "6cfbf929"
  GetMessageType := .ReplyMessage

/-- Go type `DHCPClientDump`, VPP binary API message 'dhcp_client_dump'. -/
def DHCPClientDump : api.Message where
  typeName := "DHCPClientDump"
  fields := []
  GetMessageName := "dhcp_client_dump"
  GetCrcString := "51077d14"
  GetMessageType := .RequestMessage

/-- Go type `DHCPComplEvent`, VPP binary API message 'dhcp_compl_event'. -/
def DHCPComplEvent : api.Message where
  typeName := "DHCPComplEvent"
  fields := [
    ⟨"PID", .uint32, .untagged⟩,
    ⟨"Lease", DHCPLease, .untagged⟩]
  GetMessageName := "dhcp_compl_event"
  GetCrcString := "ed1e53d7"
  GetMessageType := .EventMessage

/-- Go type `DHCPProxyConfig`, VPP binary API message 'dhcp_proxy_config'. -/
def DHCPProxyConfig : api.Message where
  typeName := "DHCPProxyConfig"
  fields := [
    ⟨"RxVrfID", .uint32, .untagged⟩,
    ⟨"ServerVrfID", .uint32, .untagged⟩,
    ⟨"IsIPv6", .uint8, .untagged⟩,
    ⟨"IsAdd", .uint8, .untagged⟩,
    ⟨"DHCPServer", .byteSlice, .array 16⟩,
    ⟨"DHCPSrcAddress", .byteSlice, .array 16⟩]
  GetMessageName := "dhcp_proxy_config"
  GetCrcString := "6af4b645"
  GetMessageType := .RequestMessage

/-- Go type `DHCPProxyConfigReply`, VPP binary API message 'dhcp_proxy_config_reply'. -/
def DHCPProxyConfigReply : api.Message where
  typeName := "DHCPProxyConfigReply"
  fields := [
    ⟨"Retval", .int32, .untagged⟩]
  GetMessageName := "dhcp_proxy_config_reply"
  GetCrcString := "e8d4e804"
  GetMessageType := .ReplyMessage

/-- Go type `DHCPProxyDetails`, VPP binary API message 'dhcp_proxy_details'. -/
def DHCPProxyDetails : api.Message where
  typeName := "DHCPProxyDetails"
  fields := [
    ⟨"RxVrfID", .uint32, .untagged⟩,
    ⟨"VssOui", .uint32, .untagged⟩,
    ⟨"VssFibID", .uint32, .untagged⟩,
    ⟨"VssType", .uint8, .untagged⟩,
    ⟨"VssVPNAsciiID", .byteSlice, .array 129⟩,
    ⟨"IsIPv6", .uint8, .untagged⟩,
    ⟨"DHCPSrcAddress", .byteSlice, .array 16⟩,
    ⟨"Count", .uint8, .sizeof "Servers"⟩,
    ⟨"Servers", .slice DHCPServer, .untagged⟩]
  GetMessageName := "dhcp_proxy_details"
  GetCrcString := "e6c45917"
  GetMessageType := .ReplyMessage

/-- Go type `DHCPProxyDump`, VPP binary API message 'dhcp_proxy_dump'. -/
def DHCPProxyDump : api.Message where
  typeName := "DHCPProxyDump"
  fields := [
    ⟨"IsIP6", .uint8, .untagged⟩]
  GetMessageName := "dhcp_proxy_dump"
  GetCrcString := "6fe91190"
  GetMessageType := .RequestMessage

/-- Go type `DHCPProxySetVss`, VPP binary API message 'dhcp_proxy_set_vss'. -/
def DHCPProxySetVss : api.Message where
  typeName := "DHCPProxySetVss"
  fields := [
    ⟨"TblID", .uint32, .untagged⟩,
    ⟨"VssType", .uint8, .untagged⟩,
    ⟨"VPNAsciiID", .byteSlice, .array 129⟩,
    ⟨"Oui", .uint32, .untagged⟩,
    ⟨"VPNIndex", .uint32, .untagged⟩,
    ⟨"IsIPv6", .uint8, .untagged⟩,
    ⟨"IsAdd", .uint8, .untagged⟩]
  GetMessageName := "dhcp_proxy_set_vss"
  GetCrcString := "606535aa"
  GetMessageType := .RequestMessage

/-- Go type `DHCPProxySetVssReply`, VPP binary API message 'dhcp_proxy_set_vss_reply'. -/
def DHCPProxySetVssReply : api.Message where
  typeName := "DHCPProxySetVssReply"
  fields := [
    ⟨"Retval", .int32, .untagged⟩]
  GetMessageName := "dhcp_proxy_set_vss_reply"
  GetCrcString := "e8d4e804"
  GetMessageType := .ReplyMessage

/-- Go type `WantDHCP6PdReplyEvents`, VPP binary API message 'want_dhcp6_pd_reply_events'. -/
def WantDHCP6PdReplyEvents : api.Message where
  typeName := "WantDHCP6PdReplyEvents"
  fields := [
    ⟨"EnableDisable", .uint8, .untagged⟩,
    ⟨"PID", .uint32, .untagged⟩]
  GetMessageName := "want_dhcp6_pd_reply_events"
  GetCrcString := "05b454b5"
  GetMessageType := .RequestMessage

/-- Go type `WantDHCP6PdReplyEventsReply`, VPP binary API message 'want_dhcp6_pd_reply_events_reply'. -/
def WantDHCP6PdReplyEventsReply : api.Message where
  typeName := "WantDHCP6PdReplyEventsReply"
  fields := [
    ⟨"Retval", .int32, .untagged⟩]
  GetMessageName := "want_dhcp6_pd_reply_events_reply"
  GetCrcString := "e8d4e804"
  GetMessageType := .ReplyMessage

/-- Go type `WantDHCP6ReplyEvents`, VPP binary API message 'want_dhcp6_reply_events'. -/
def WantDHCP6ReplyEvents : api.Message where
  typeName := "WantDHCP6ReplyEvents"
  fields := [
    ⟨"EnableDisable", .uint8, .untagged⟩,
    ⟨"PID", .uint32, .untagged⟩]
  GetMessageName := "want_dhcp6_reply_events"
  GetCrcString := "05b454b5"
  GetMessageType := .RequestMessage

/-- Go type `WantDHCP6ReplyEventsReply`, VPP binary API message 'want_dhcp6_reply_events_reply'. -/
def WantDHCP6ReplyEventsReply : api.Message where
  typeName := "WantDHCP6ReplyEventsReply"
  fields := [
    ⟨"Retval", .int32, .untagged⟩]
  GetMessageName := "want_dhcp6_reply_events_reply"
  GetCrcString := "e8d4e804"
  GetMessageType := .ReplyMessage

/-- The struct types declared under `Types` in this module. -/
def Types : List GoType := [DHCP6AddressInfo, DHCP6PdPrefixInfo, DHCPClient, DHCPLease, DHCPServer, DomainServer]

/-- The calls `api.RegisterMessage(x, name)` made by `init`, in order. -/
def initCalls : List (api.Message × String) := [
  (DHCP6ClientsEnableDisable, "dhcp.DHCP6ClientsEnableDisable"),
  (DHCP6ClientsEnableDisableReply, "dhcp.DHCP6ClientsEnableDisableReply"),
  (DHCP6DuidLlSet, "dhcp.DHCP6DuidLlSet"),
  (DHCP6DuidLlSetReply, "dhcp.DHCP6DuidLlSetReply"),
  (DHCP6PdReplyEvent, "dhcp.DHCP6PdReplyEvent"),
  (DHCP6PdSendClientMessage, "dhcp.DHCP6PdSendClientMessage"),
  (DHCP6PdSendClientMessageReply, "dhcp.DHCP6PdSendClientMessageReply"),
  (DHCP6ReplyEvent, "dhcp.DHCP6ReplyEvent"),
  (DHCP6SendClientMessage, "dhcp.DHCP6SendClientMessage"),
  (DHCP6SendClientMessageReply, "dhcp.DHCP6SendClientMessageReply"),
  (DHCPClientConfig, "dhcp.DHCPClientConfig"),
  (DHCPClientConfigReply, "dhcp.DHCPClientConfigReply"),
  (DHCPClientDetails, "dhcp.DHCPClientDetails"),
  (DHCPClientDump, "dhcp.DHCPClientDump"),
  (DHCPComplEvent, "dhcp.DHCPComplEvent"),
  (DHCPProxyConfig, "dhcp.DHCPProxyConfig"),
  (DHCPProxyConfigReply, "dhcp.DHCPProxyConfigReply"),
  (DHCPProxyDetails, "dhcp.DHCPProxyDetails"),
  (DHCPProxyDump, "dhcp.DHCPProxyDump"),
  (DHCPProxySetVss, "dhcp.DHCPProxySetVss"),
  (DHCPProxySetVssReply, "dhcp.DHCPProxySetVssReply"),
  (WantDHCP6PdReplyEvents, "dhcp.WantDHCP6PdReplyEvents"),
  (WantDHCP6PdReplyEventsReply, "dhcp.WantDHCP6PdReplyEventsReply"),
  (WantDHCP6ReplyEvents, "dhcp.WantDHCP6ReplyEvents"),
  (WantDHCP6ReplyEventsReply, "dhcp.WantDHCP6ReplyEventsReply")]

/-- The function `init`: the registration calls, one after the other, each on the
registry left by the one before. -/
def init (r : api.Registry) : Except api.RegistryError api.Registry :=
  initCalls.foldlM (fun r c => api.RegisterMessage c.1 c.2 r) r

/-- Messages returns list of all messages in this module. -/
def AllMessages : List api.Message := [
  DHCP6ClientsEnableDisable,
  DHCP6ClientsEnableDisableReply,
  DHCP6DuidLlSet,
  DHCP6DuidLlSetReply,
  DHCP6PdReplyEvent,
  DHCP6PdSendClientMessage,
  DHCP6PdSendClientMessageReply,
  DHCP6ReplyEvent,
  DHCP6SendClientMessage,
  DHCP6SendClientMessageReply,
  DHCPClientConfig,
  DHCPClientConfigReply,
  DHCPClientDetails,
  DHCPClientDump,
  DHCPComplEvent,
  DHCPProxyConfig,
  DHCPProxyConfigReply,
  DHCPProxyDetails,
  DHCPProxyDump,
  DHCPProxySetVss,
  DHCPProxySetVssReply,
  WantDHCP6PdReplyEvents,
  WantDHCP6PdReplyEventsReply,
  WantDHCP6ReplyEvents,
  WantDHCP6ReplyEventsReply]

end dhcp

/-! ## Module memif -/

namespace memif

/-- ModuleName is the name of this module. -/
def ModuleName : String := "memif"

/-- APIVersion is the API version of this module. -/
def APIVersion : String := "2.0.0"

/-- VersionCrc is the CRC of this module. -/
def VersionCrc : Nat := 0x939f78a7

/-- The package documentation: "The memif module consists of: 10 messages". -/
def docMessages : Nat := 10

/-- The package documentation: "The memif module consists of: 5 services". -/
def docServices : Nat := 5

/-- Go type `MemifCreate`, VPP binary API message 'memif_create'. -/
def MemifCreate : api.Message where
  typeName := "MemifCreate"
  fields := [
    ⟨"Role", .uint8, .untagged⟩,
    ⟨"Mode", .uint8, .untagged⟩,
    ⟨"RxQueues", .uint8, .untagged⟩,
    ⟨"TxQueues", .uint8, .untagged⟩,
    ⟨"ID", .uint32, .untagged⟩,
    ⟨"SocketID", .uint32, .untagged⟩,
    ⟨"Secret", .byteSlice, .array 24⟩,
    ⟨"RingSize", .uint32, .untagged⟩,
    ⟨"BufferSize", .uint16, .untagged⟩,
    ⟨"HwAddr", .byteSlice, .array 6⟩]
  GetMessageName := "memif_create"
  GetCrcString := "6597cdb2"
  GetMessageType := .RequestMessage

/-- Go type `MemifCreateReply`, VPP binary API message 'memif_create_reply'. -/
def MemifCreateReply : api.Message where
  typeName := "MemifCreateReply"
  fields := [
    ⟨"Retval", .int32, .untagged⟩,
    ⟨"SwIfIndex", .uint32, .untagged⟩]
  GetMessageName := "memif_create_reply"
  GetCrcString := "fda5941f"
  GetMessageType := .ReplyMessage

/-- Go type `MemifDelete`, VPP binary API message 'memif_delete'. -/
def MemifDelete : api.Message where
  typeName := "MemifDelete"
  fields := [
    ⟨"SwIfIndex", .uint32, .untagged⟩]
  GetMessageName := "memif_delete"
  GetCrcString := "529cb13f"
  GetMessageType := .RequestMessage

/-- Go type `MemifDeleteReply`, VPP binary API message 'memif_delete_reply'. -/
def MemifDeleteReply : api.Message where
  typeName := "MemifDeleteReply"
  fields := [
    ⟨"Retval", .int32, .untagged⟩]
  GetMessageName := "memif_delete_reply"
  GetCrcString := "e8d4e804"
  GetMessageType := .ReplyMessage

/-- Go type `MemifDetails`, VPP binary API message 'memif_details'. -/
def MemifDetails : api.Message where
  typeName := "MemifDetails"
  fields := [
    ⟨"SwIfIndex", .uint32, .untagged⟩,
    ⟨"IfName", .byteSlice, .array 64⟩,
    ⟨"HwAddr", .byteSlice, .array 6⟩,
    ⟨"ID", .uint32, .untagged⟩,
    ⟨"Role", .uint8, .untagged⟩,
    ⟨"Mode", .uint8, .untagged⟩,
    ⟨"SocketID", .uint32, .untagged⟩,
    ⟨"RingSize", .uint32, .untagged⟩,
    ⟨"BufferSize", .uint16, .untagged⟩,
    ⟨"AdminUpDown", .uint8, .untagged⟩,
    ⟨"LinkUpDown", .uint8, .untagged⟩]
  GetMessageName := "memif_details"
  GetCrcString := "4f5a3397"
  GetMessageType := .ReplyMessage

/-- Go type `MemifDump`, VPP binary API message 'memif_dump'. -/
def MemifDump : api.Message where
  typeName := "MemifDump"
  fields := []
  GetMessageName := "memif_dump"
  GetCrcString := "51077d14"
  GetMessageType := .RequestMessage

/-- Go type `MemifSocketFilenameAddDel`, VPP binary API message 'memif_socket_filename_add_del'. -/
def MemifSocketFilenameAddDel : api.Message where
  typeName := "MemifSocketFilenameAddDel"
  fields := [
    ⟨"IsAdd", .uint8, .untagged⟩,
    ⟨"SocketID", .uint32, .untagged⟩,
    ⟨"SocketFilename", .byteSlice, .array 128⟩]
  GetMessageName := "memif_socket_filename_add_del"
  GetCrcString := "30e3929d"
  GetMessageType := .RequestMessage

/-- Go type `MemifSocketFilenameAddDelReply`, VPP binary API message 'memif_socket_filename_add_del_reply'. -/
def MemifSocketFilenameAddDelReply : api.Message where
  typeName := "MemifSocketFilenameAddDelReply"
  fields := [
    ⟨"Retval", .int32, .untagged⟩]
  GetMessageName := "memif_socket_filename_add_del_reply"
  GetCrcString := "e8d4e804"
  GetMessageType := .ReplyMessage

/-- Go type `MemifSocketFilenameDetails`, VPP binary API message 'memif_socket_filename_details'. -/
def MemifSocketFilenameDetails : api.Message where
  typeName := "MemifSocketFilenameDetails"
  fields := [
    ⟨"SocketID", .uint32, .untagged⟩,
    ⟨"SocketFilename", .byteSlice, .array 128⟩]
  GetMessageName := "memif_socket_filename_details"
  GetCrcString := "e347e32f"
  GetMessageType := .ReplyMessage

/-- Go type `MemifSocketFilenameDump`, VPP binary API message 'memif_socket_filename_dump'. -/
def MemifSocketFilenameDump : api.Message where
  typeName := "MemifSocketFilenameDump"
  fields := []
  GetMessageName := "memif_socket_filename_dump"
  GetCrcString := "51077d14"
  GetMessageType := .RequestMessage

/-- The struct types declared under `Types` in this module. -/
def Types : List GoType := []

/-- The calls `api.RegisterMessage(x, name)` made by `init`, in order. -/
def initCalls : List (api.Message × String) := [
  (MemifCreate, "memif.MemifCreate"),
  (MemifCreateReply, "memif.MemifCreateReply"),
  (MemifDelete, "memif.MemifDelete"),
  (MemifDeleteReply, "memif.MemifDeleteReply"),
  (MemifDetails, "memif.MemifDetails"),
  (MemifDump, "memif.MemifDump"),
  (MemifSocketFilenameAddDel, "memif.MemifSocketFilenameAddDel"),
  (MemifSocketFilenameAddDelReply, "memif.MemifSocketFilenameAddDelReply"),
  (MemifSocketFilenameDetails, "memif.MemifSocketFilenameDetails"),
  (MemifSocketFilenameDump, "memif.MemifSocketFilenameDump")]

/-- The function `init`: the registration calls, one after the other, each on the
registry left by the one before. -/
def init (r : api.Registry) : Except api.RegistryError api.Registry :=
  initCalls.foldlM (fun r c => api.RegisterMessage c.1 c.2 r) r

/-- Messages returns list of all messages in this module. -/
def AllMessages : List api.Message := [
  MemifCreate,
  MemifCreateReply,
  MemifDelete,
  MemifDeleteReply,
  MemifDetails,
  MemifDump,
  MemifSocketFilenameAddDel,
  MemifSocketFilenameAddDelReply,
  MemifSocketFilenameDetails,
  MemifSocketFilenameDump]

end memif


/-! ## Wire codec

The codec that packs these structs is not part of the sources; it is modelled
from the specification (section 4.1 and the wire layout of section 6) and
interprets the declarations above. -/

namespace codec

/-- One byte on the wire. -/
abbrev Byte := Fin 256

/-- Modelled from the spec: the two codec error kinds of section 7. -/
inductive CodecError
  | MalformedMessage
  | ValueOutOfRange
  deriving DecidableEq, Repr

/-- Modelled from the spec: the wire byte order is fixed but the spec leaves open
which one it is, so it is a parameter of the codec. -/
inductive Endian
  | big
  | little
  deriving DecidableEq, Repr

/-- A Go value of one of the declared types: an integer, a `[]byte`, a struct
(its field values in declaration order) or a slice of elements. -/
inductive Value
  | int (n : Int)
  | bytes (bs : List Byte)
  | struct (fields : List Value)
  | list (elems : List Value)

mutual
/-- Decidable equality of values. -/
def Value.decEq : (a b : Value) → Decidable (a = b)
  | .int n, .int n2 =>
    if h : n = n2 then isTrue (by rw [h]) else isFalse (fun h2 => h (by cases h2; rfl))
  | .bytes s, .bytes s2 =>
    if h : s = s2 then isTrue (by rw [h]) else isFalse (fun h2 => h (by cases h2; rfl))
  | .struct vs, .struct vs2 =>
    match Value.decEqList vs vs2 with
    | isTrue h => isTrue (by rw [h])
    | isFalse h => isFalse (fun h2 => h (by cases h2; rfl))
  | .list vs, .list vs2 =>
    match Value.decEqList vs vs2 with
    | isTrue h => isTrue (by rw [h])
    | isFalse h => isFalse (fun h2 => h (by cases h2; rfl))
  | .int _, .bytes _ => isFalse (fun h => by cases h)
  | .int _, .struct _ => isFalse (fun h => by cases h)
  | .int _, .list _ => isFalse (fun h => by cases h)
  | .bytes _, .int _ => isFalse (fun h => by cases h)
  | .bytes _, .struct _ => isFalse (fun h => by cases h)
  | .bytes _, .list _ => isFalse (fun h => by cases h)
  | .struct _, .int _ => isFalse (fun h => by cases h)
  | .struct _, .bytes _ => isFalse (fun h => by cases h)
  | .struct _, .list _ => isFalse (fun h => by cases h)
  | .list _, .int _ => isFalse (fun h => by cases h)
  | .list _, .bytes _ => isFalse (fun h => by cases h)
  | .list _, .struct _ => isFalse (fun h => by cases h)
/-- Decidable equality of lists of values. -/
def Value.decEqList : (a b : List Value) → Decidable (a = b)
  | [], [] => isTrue rfl
  | [], _ :: _ => isFalse (fun h => by cases h)
  | _ :: _, [] => isFalse (fun h => by cases h)
  | v :: vs, v2 :: vs2 =>
    match Value.decEq v v2 with
    | isTrue h =>
      match Value.decEqList vs vs2 with
      | isTrue h2 => isTrue (by rw [h, h2])
      | isFalse h2 => isFalse (fun h3 => h2 (by cases h3; rfl))
    | isFalse h => isFalse (fun h3 => h (by cases h3; rfl))
end

instance : DecidableEq Value := Value.decEq

end codec

/-- Smallest value of the Go integer type. -/
def ScalarKind.minValue : ScalarKind → Int
  | .U8 => 0
  | .U16 => 0
  | .U32 => 0
  | .I32 => -2147483648

/-- Largest value of the Go integer type. -/
def ScalarKind.maxValue : ScalarKind → Int
  | .U8 => 255
  | .U16 => 65535
  | .U32 => 4294967295
  | .I32 => 2147483647

namespace codec

/-- Modelled from the spec: part of the fixed-width scalar form of the codec, which
is not in the sources: the `w` low-order bytes of `n`, least significant first. -/
def toLE : Nat → Nat → List Byte
  | 0, _ => []
  | w + 1, n => ⟨n % 256, Nat.mod_lt n (by decide)⟩ :: toLE w (n / 256)

/-- Modelled from the spec: part of the fixed-width scalar form of the codec: the
number whose bytes, least significant first, are `bs`. -/
def fromLE : List Byte → Nat
  | [] => 0
  | b :: bs => b.val + 256 * fromLE bs

/-- Modelled from the spec: the fixed-width, fixed-endianness image of `n`. -/
def toWire (e : Endian) (w n : Nat) : List Byte :=
  match e with
  | .little => toLE w n
  | .big => (toLE w n).reverse

/-- Modelled from the spec: the number read from `bs` in the given byte order. -/
def fromWire (e : Endian) (bs : List Byte) : Nat :=
  match e with
  | .little => fromLE bs
  | .big => fromLE bs.reverse

/-- Modelled from the spec: a scalar is written in its fixed width (two's
complement for `int32`); a value outside the declared width is `ValueOutOfRange`. -/
def encodeScalar (e : Endian) (k : ScalarKind) (n : Int) : Except CodecError (List Byte) :=
  if k.minValue ≤ n ∧ n ≤ k.maxValue then
    .ok (toWire e k.width (n % (256 : Int) ^ k.width).toNat)
  else .error .ValueOutOfRange

/-- Modelled from the spec: a scalar is read from exactly its declared width;
fewer remaining bytes are `MalformedMessage`. -/
def decodeScalar (e : Endian) (k : ScalarKind) (bs : List Byte) :
    Except CodecError (Int × List Byte) :=
  if bs.length < k.width then .error .MalformedMessage
  else
    let u : Int := (fromWire e (bs.take k.width) : Nat)
    .ok (if k.maxValue < u then u - (256 : Int) ^ k.width else u, bs.drop k.width)

/-- Modelled from the spec: a fixed-length byte array of width `n` is the source
truncated to `n` bytes and zero-padded up to `n` bytes. -/
def fixedBytes (n : Nat) (s : List Byte) : List Byte :=
  s.take n ++ List.replicate (n - s.length) 0

/-- Modelled from the spec: the elements of a counted array are encoded one after
the other. -/
def encodeAll (f : Value → Except CodecError (List Byte)) :
    List Value → Except CodecError (List Byte)
  | [] => .ok []
  | v :: vs =>
    match f v with
    | .error err => .error err
    | .ok b =>
      match encodeAll f vs with
      | .error err => .error err
      | .ok bs => .ok (b ++ bs)

/-- Modelled from the spec: a counted array is decoded as exactly `k` repetitions
of the element schema. -/
def decodeN (d : List Byte → Except CodecError (Value × List Byte)) :
    Nat → List Byte → Except CodecError (List Value × List Byte)
  | 0, bs => .ok ([], bs)
  | k + 1, bs =>
    match d bs with
    | .error err => .error err
    | .ok (v, rest) =>
      match decodeN d k rest with
      | .error err => .error err
      | .ok (vs, rest2) => .ok (v :: vs, rest2)

/-- The value of the field named `x` in a struct value. -/
def fieldValue (x : String) : List StructField → List Value → Option Value
  | f :: fs, v :: vs => if f.name = x then some v else fieldValue x fs vs
  | _, _ => none

/-- The number of elements of an array value. -/
def valueLen : Value → Option Nat
  | .list es => some es.length
  | .bytes s => some s.length
  | _ => none

/-- The number of elements actually held by the array field named `x`. -/
def arrayLen (x : String) (fs : List StructField) (vs : List Value) : Option Nat :=
  match fieldValue x fs vs with
  | some v => valueLen v
  | none => none

/-- Modelled from the spec: the value written for a field.  A count field
(`sizeof=<array>`) is computed from the actual element count of its array, not
taken from the caller; every other field is written as supplied. -/
def wireValue (tag : StrucTag) (lens : String → Option Nat) (v : Value) : Option Value :=
  match tag with
  | .sizeof x =>
    match lens x with
    | some k => some (.int k)
    | none => none
  | _ => some v

mutual
/-- Modelled from the spec: `encode` of one value of a declared type.  Scalars
are fixed width, `[n]byte` arrays are padded or truncated to `n`, structs are
their fields in order, counted arrays are their elements in order. -/
def encodeValue (e : Endian) : GoType → StrucTag → Value → Except CodecError (List Byte)
  | .scalar k, _, v =>
    match v with
    | .int n => encodeScalar e k n
    | _ => .error .ValueOutOfRange
  | .byteSlice, tag, v =>
    match v with
    | .bytes s =>
      match tag with
      | .array n => .ok (fixedBytes n s)
      | _ => .ok s
    | _ => .error .ValueOutOfRange
  | .struct _ fs, _, v =>
    match v with
    | .struct vs => encodeFields e (fun x => arrayLen x fs vs) fs vs
    | _ => .error .ValueOutOfRange
  | .slice t, _, v =>
    match v with
    | .list es => encodeAll (encodeValue e t .untagged) es
    | _ => .error .ValueOutOfRange
/-- Modelled from the spec: the fields of a struct, in declaration order;
`lens` gives the actual element count of each array field of the struct. -/
def encodeFields (e : Endian) (lens : String → Option Nat) :
    List StructField → List Value → Except CodecError (List Byte)
  | [], vs =>
    match vs with
    | [] => .ok []
    | _ :: _ => .error .ValueOutOfRange
  | .mk _ t tag :: fs, vs =>
    match vs with
    | [] => .error .ValueOutOfRange
    | v :: vs =>
      match wireValue tag lens v with
      | none => .error .ValueOutOfRange
      | some w =>
        match encodeValue e t tag w with
        | .error err => .error err
        | .ok b =>
          match encodeFields e lens fs vs with
          | .error err => .error err
          | .ok bs => .ok (b ++ bs)
end

/-- Modelled from the spec: the decoder first decodes the referenced count field;
this is the count decoded for the array named `x`, if a count field naming it
was decoded before. -/
def countFor (x : String) : List (String × Nat) → Option Nat
  | [] => none
  | (y, k) :: r => if y = x then some k else countFor x r

/-- Modelled from the spec: the decoder remembers the value decoded for a count
field, for the array the field names. -/
def noteCount (tag : StrucTag) (v : Value) (counts : List (String × Nat)) :
    List (String × Nat) :=
  match tag with
  | .sizeof x =>
    match v with
    | .int k => (x, k.toNat) :: counts
    | _ => counts
  | _ => counts

/-- Modelled from the spec: a byte array is either fixed-width or preceded by a
count field; the number of bytes of a `[]byte` field is that of its `[n]byte`
tag, else its decoded count. -/
def byteLen (tag : StrucTag) (cnt : Option Nat) : Option Nat :=
  match tag with
  | .array n => some n
  | _ => cnt

mutual
/-- Modelled from the spec: `decode` of one value of a declared type from the
front of a buffer, returning the value and the remaining bytes.  `cnt` is the
decoded value of the count field governing this field, if any. -/
def decodeValue (e : Endian) :
    GoType → StrucTag → Option Nat → List Byte → Except CodecError (Value × List Byte)
  | .scalar k, _, _, bs =>
    match decodeScalar e k bs with
    | .error err => .error err
    | .ok (n, rest) => .ok (.int n, rest)
  | .byteSlice, tag, cnt, bs =>
    match byteLen tag cnt with
    | none => .error .MalformedMessage
    | some n =>
      if n ≤ bs.length then .ok (.bytes (bs.take n), bs.drop n)
      else .error .MalformedMessage
  | .struct _ fs, _, _, bs =>
    match decodeFields e [] fs bs with
    | .error err => .error err
    | .ok (vs, rest) => .ok (.struct vs, rest)
  | .slice t, _, cnt, bs =>
    match cnt with
    | none => .error .MalformedMessage
    | some k =>
      match decodeN (decodeValue e t .untagged none) k bs with
      | .error err => .error err
      | .ok (vs, rest) => .ok (.list vs, rest)
/-- Modelled from the spec: the fields of a struct, in declaration order;
`counts` holds the count fields decoded so far. -/
def decodeFields (e : Endian) :
    List (String × Nat) → List StructField → List Byte →
      Except CodecError (List Value × List Byte)
  | _, [], bs => .ok ([], bs)
  | counts, .mk name t tag :: fs, bs =>
    match decodeValue e t tag (countFor name counts) bs with
    | .error err => .error err
    | .ok (v, rest) =>
      match decodeFields e (noteCount tag v counts) fs rest with
      | .error err => .error err
      | .ok (vs, rest2) => .ok (v :: vs, rest2)
end

/-- Modelled from the spec: `encode(value, schema) -> bytes`. -/
def encode (e : Endian) (schema : api.Message) (v : Value) : Except CodecError (List Byte) :=
  encodeValue e schema.goType .untagged v

/-- Modelled from the spec: `decode(bytes, schema) -> value`. -/
def decode (e : Endian) (schema : api.Message) (bs : List Byte) : Except CodecError Value :=
  match decodeValue e schema.goType .untagged none bs with
  | .error err => .error err
  | .ok (v, _) => .ok v

end codec

/-! ## Values of a declared type and their field constraints -/

namespace codec

mutual
/-- The value is a value of the Go type: integers lie in the range of their
type, structs have one value per declared field, slices hold elements of the
element type. -/
def hasType : GoType → Value → Bool
  | .scalar k, v =>
    match v with
    | .int n => decide (k.minValue ≤ n ∧ n ≤ k.maxValue)
    | _ => false
  | .byteSlice, v =>
    match v with
    | .bytes _ => true
    | _ => false
  | .struct _ fs, v =>
    match v with
    | .struct vs => hasTypeFields fs vs
    | _ => false
  | .slice t, v =>
    match v with
    | .list es => es.all (hasType t)
    | _ => false
/-- The values are values of the fields, one per field. -/
def hasTypeFields : List StructField → List Value → Bool
  | [], vs =>
    match vs with
    | [] => true
    | _ :: _ => false
  | .mk _ t _ :: fs, vs =>
    match vs with
    | [] => false
    | v :: vs => hasType t v && hasTypeFields fs vs
end

/-- A count field (`sizeof=<array>`) holds the number of elements of its array. -/
def countOk (tag : StrucTag) (lens : String → Option Nat) (v : Value) : Bool :=
  match tag with
  | .sizeof x =>
    match v, lens x with
    | .int n, some k => decide (n = (k : Int))
    | _, _ => false
  | _ => true

mutual
/-- The field constraints of a value: every `[n]byte` field holds exactly `n`
bytes and every count field equals the length of the array it governs. -/
def conforms : GoType → StrucTag → Value → Bool
  | .scalar _, _, _ => true
  | .byteSlice, tag, v =>
    match tag, v with
    | .array n, .bytes s => decide (s.length = n)
    | _, _ => true
  | .struct _ fs, _, v =>
    match v with
    | .struct vs => conformsFields (fun x => arrayLen x fs vs) fs vs
    | _ => true
  | .slice t, _, v =>
    match v with
    | .list es => es.all (conforms t .untagged)
    | _ => true
/-- The field constraints of the fields of a struct value. -/
def conformsFields (lens : String → Option Nat) : List StructField → List Value → Bool
  | [], _ => true
  | .mk _ t tag :: fs, vs =>
    match vs with
    | [] => true
    | v :: vs => countOk tag lens v && conforms t tag v && conformsFields lens fs vs
end

/-- The arrays governed by the count fields seen so far, extended by one field. -/
def governs (tag : StrucTag) (t : GoType) (cn : List String) : List String :=
  match tag, t with
  | .sizeof x, .scalar _ => x :: cn
  | _, _ => cn

mutual
/-- The declaration gives every array a length: a `[]byte` has an `[n]byte` tag
or a count field declared before it, a slice has a count field declared before
it, and the field names of a struct are distinct. -/
def wellFormed : GoType → StrucTag → Bool → Bool
  | .scalar _, _, _ => true
  | .byteSlice, tag, counted =>
    match tag with
    | .array _ => true
    | _ => counted
  | .struct _ fs, _, _ =>
    decide ((fs.map StructField.name).Nodup) && wellFormedFields [] fs
  | .slice t, _, counted => counted && wellFormed t .untagged false
/-- The fields of a struct are well formed, given the arrays governed so far. -/
def wellFormedFields : List String → List StructField → Bool
  | _, [] => true
  | cn, .mk name t tag :: fs =>
    wellFormed t tag (decide (name ∈ cn)) && wellFormedFields (governs tag t cn) fs
end

/-- Whether a field is an array whose length comes from a count field: a slice,
or a `[]byte` without an `[n]byte` tag. -/
def isCountedArray : GoType → StrucTag → Bool
  | .slice _, _ => true
  | .byteSlice, tag =>
    match tag with
    | .array _ => false
    | _ => true
  | _, _ => false

/-- Whether a type is an unsigned integer type. -/
def isUnsigned : GoType → Bool
  | .scalar k => !k.signed
  | _ => false

/-- The arrays named by the `sizeof` tags of the fields. -/
def sizeofTargets : List StructField → List String
  | [] => []
  | .mk _ _ tag :: fs =>
    match tag with
    | .sizeof x => x :: sizeofTargets fs
    | _ => sizeofTargets fs

/-- Whether the fields contain a counted array named `x`. -/
def hasCountedArray (x : String) (fs : List StructField) : Bool :=
  fs.any (fun f => decide (f.name = x) && isCountedArray f.type f.tag)

/-- The count fields of a struct are unambiguous: field names are distinct, and
every `sizeof=<x>` tag sits on an unsigned integer field, names a counted array
declared later, and is the only tag naming that array. -/
def countsStrict : List StructField → Bool
  | [] => true
  | .mk c t tag :: fs =>
    decide (c ∉ fs.map StructField.name) &&
    (match tag with
      | .sizeof x => isUnsigned t && hasCountedArray x fs && decide (x ∉ sizeofTargets fs)
      | _ => true) &&
    countsStrict fs

mutual
/-- Every struct inside the type has unambiguous count fields. -/
def invertible : GoType → Bool
  | .scalar _ => true
  | .byteSlice => true
  | .struct _ fs => countsStrict fs && invertibleFields fs
  | .slice t => invertible t
/-- Every struct inside the field types has unambiguous count fields. -/
def invertibleFields : List StructField → Bool
  | [] => true
  | .mk _ t _ :: fs => invertible t && invertibleFields fs
end

/-- The declared width in bytes of a field whose size does not depend on its
value: an integer field that is not a count field, or an `[n]byte` array. -/
def fieldWidth : GoType → StrucTag → Option Nat
  | .scalar k, tag =>
    match tag with
    | .sizeof _ => none
    | _ => some k.width
  | .byteSlice, tag =>
    match tag with
    | .array n => some n
    | _ => none
  | _, _ => none

/-- The sum of the declared widths of the fields, when each has one. -/
def staticWidth : List StructField → Option Nat
  | [] => some 0
  | .mk _ t tag :: fs =>
    match fieldWidth t tag, staticWidth fs with
    | some w, some r => some (w + r)
    | _, _ => none

/-- The declared width of the elements of a slice of structs, when every field of
the element struct has one. -/
def sliceElemWidth : GoType → Option Nat
  | .slice (.struct _ ef) => staticWidth ef
  | _ => none

mutual
/-- The wire length the declaration gives a value: the declared width of every
integer field and `[n]byte` array, and for every counted array the sum of the
wire lengths of its elements.  The contents of integer fields and of fixed
arrays play no part. -/
def wireSize : GoType → StrucTag → Value → Nat
  | .scalar k, _, _ => k.width
  | .byteSlice, tag, v =>
    match tag with
    | .array n => n
    | _ =>
      match v with
      | .bytes s => s.length
      | _ => 0
  | .struct _ fs, _, v =>
    match v with
    | .struct vs => wireSizeFields fs vs
    | _ => 0
  | .slice t, _, v =>
    match v with
    | .list es => (es.map (wireSize t .untagged)).sum
    | _ => 0
/-- The wire length of the fields of a struct value. -/
def wireSizeFields : List StructField → List Value → Nat
  | [], _ => 0
  | .mk _ t tag :: fs, vs =>
    match vs with
    | [] => 0
    | v :: vs => wireSize t tag v + wireSizeFields fs vs
end

mutual
/-- Modelled from the spec: the value carried by the encoding of `v`: an
`[n]byte` field holds its `n` padded or truncated bytes, a count field holds the
actual number of elements of its array, structs and array elements field by
field. -/
def wireForm : GoType → StrucTag → Value → Value
  | .scalar _, _, v => v
  | .byteSlice, tag, v =>
    match tag, v with
    | .array n, .bytes s => .bytes (fixedBytes n s)
    | _, _ => v
  | .struct _ fs, _, v =>
    match v with
    | .struct vs => .struct (wireFormFields (fun x => arrayLen x fs vs) fs vs)
    | _ => v
  | .slice t, _, v =>
    match v with
    | .list es => .list (es.map (wireForm t .untagged))
    | _ => v
/-- Modelled from the spec: the values carried by the encoding of the fields of a
struct value. -/
def wireFormFields (lens : String → Option Nat) : List StructField → List Value → List Value
  | [], _ => []
  | .mk _ t tag :: fs, vs =>
    match vs with
    | [] => []
    | v :: vs =>
      (match wireValue tag lens v with
        | some w => wireForm t tag w
        | none => v) :: wireFormFields lens fs vs
end

mutual
/-- Every counted array of the value, at every depth, has a number of elements
that fits the integer type of its count field. -/
def countsFit : GoType → Value → Bool
  | .scalar _, _ => true
  | .byteSlice, _ => true
  | .struct _ fs, v =>
    match v with
    | .struct vs => countsFitFields (fun x => arrayLen x fs vs) fs vs
    | _ => true
  | .slice t, v =>
    match v with
    | .list es => es.all (countsFit t)
    | _ => true
/-- The counted arrays of the fields of a struct value fit their count fields;
`lens` gives the number of elements of each array field of the struct. -/
def countsFitFields (lens : String → Option Nat) : List StructField → List Value → Bool
  | [], _ => true
  | .mk _ t tag :: fs, vs =>
    match vs with
    | [] => true
    | v :: vs =>
      (match tag with
        | .sizeof x =>
          match t, lens x with
          | .scalar k, some n => decide ((n : Int) ≤ k.maxValue)
          | _, _ => false
        | _ => countsFit t v) && countsFitFields lens fs vs
end

/-- The two lists have the same length and `p` holds of the elements at each
position. -/
def agreeAll (p : Value → Value → Bool) : List Value → List Value → Bool
  | [], [] => true
  | v :: vs, w :: ws => p v w && agreeAll p vs ws
  | _, _ => false

mutual
/-- The value `w` read back has, at every depth, the shape of the value `v` that
was encoded, and every count field (`sizeof=<array>`) of `w` holds the number of
elements of its array in `v`; what `v` itself holds in its count fields plays no
part. -/
def countsAgree : GoType → Value → Value → Bool
  | .scalar _, _, _ => true
  | .byteSlice, _, _ => true
  | .struct _ fs, v, w =>
    match v, w with
    | .struct vs, .struct ws => countsAgreeFields (fun x => arrayLen x fs vs) fs vs ws
    | _, _ => false
  | .slice t, v, w =>
    match v, w with
    | .list es, .list ds => agreeAll (countsAgree t) es ds
    | _, _ => false
/-- The fields read back agree with the fields encoded; `lens` gives the number
of elements of each array field of the encoded struct. -/
def countsAgreeFields (lens : String → Option Nat) :
    List StructField → List Value → List Value → Bool
  | [], vs, ws => vs.isEmpty && ws.isEmpty
  | .mk _ t tag :: fs, vs, ws =>
    match vs, ws with
    | v :: vs, w :: ws =>
      (match tag with
        | .sizeof x =>
          match w, lens x with
          | .int n, some k => decide (n = (k : Int))
          | _, _ => false
        | _ => countsAgree t v w) && countsAgreeFields lens fs vs ws
    | _, _ => false
end

end codec

/-- The field lists of every struct declared by the two modules: the types and
the messages. -/
def declaredStructs : List (List StructField) :=
  (dhcp.Types ++ memif.Types).map GoType.structFields ++
    (dhcp.AllMessages ++ memif.AllMessages).map api.Message.fields

/-! ## The control context of `cmd/vpp-agent-ctlv2/data` -/

namespace data

/-- The collaborators of the control context that are not part of the sources:
the result of `serviceLabel.Init()` (an error or none), the prefix returned by
`serviceLabel.GetAgentPrefix()`, and the two key-value client constructors, each
returning a bytes connection, a broker and an error. -/
structure External (Conn Broker Err : Type) where
  serviceLabelInit : Option Err
  GetAgentPrefix : String
  CreateEtcdClient : String → String → Option Conn × Option Broker × Option Err
  CreateRedisClient : String → String → Option Conn × Option Broker × Option Err

/-- VppAgentCtlImpl is a ctl context: the command set and the two key-value
handles (the logger and the service label live in `External`). -/
structure VppAgentCtlImpl (Conn Broker : Type) where
  commands : List String
  bytesConnection : Option Conn
  broker : Option Broker

/-- The outcome of `Log.Panic`: the function does not return. -/
inductive Panicked
  | raised (msg : String)
  deriving DecidableEq, Repr

/-- GetCommands returns origin al vpp-agent-ctl commands. -/
def VppAgentCtlImpl.GetCommands {Conn Broker : Type} (ctl : VppAgentCtlImpl Conn Broker) :
    List String :=
  ctl.commands

/-- The function `initVppAgentCtl`: builds the context with the command set, then
initialises the service label and panics when that returns an error. -/
def initVppAgentCtl {Conn Broker Err : Type} (ext : External Conn Broker Err)
    (cmdSet : List String) : Except Panicked (VppAgentCtlImpl Conn Broker) :=
  let ctl : VppAgentCtlImpl Conn Broker :=
    { commands := cmdSet, bytesConnection := none, broker := none }
  match ext.serviceLabelInit with
  | some _ => .error (.raised "failed to init servicvice label plugin")
  | none => .ok ctl

/-- NewVppAgentCtl creates new VppAgentCtl object with initialized fields: it
returns the context together with the error of the client creation. -/
def NewVppAgentCtl {Conn Broker Err : Type} (ext : External Conn Broker Err)
    (dbCfg : String) (cmdSet : List String) (etcd : Bool) :
    Except Panicked (VppAgentCtlImpl Conn Broker × Option Err) :=
  match initVppAgentCtl ext cmdSet with
  | .error p => .error p
  | .ok ctl =>
    let r :=
      if etcd then ext.CreateEtcdClient dbCfg ext.GetAgentPrefix
      else ext.CreateRedisClient dbCfg ext.GetAgentPrefix
    .ok ({ ctl with bytesConnection := r.1, broker := r.2.1 }, r.2.2)

end data

/-! ## Theorems: the codec -/

namespace codec

/-! ### Scalars -/

theorem toLE_length (w n : Nat) : (toLE w n).length = w := by
  induction w generalizing n with
  | zero => rfl
  | succ w ih => simp [toLE, ih]

theorem fromLE_toLE (w n : Nat) : fromLE (toLE w n) = n % 256 ^ w := by
  induction w generalizing n with
  | zero => simp [toLE, fromLE, Nat.mod_one]
  | succ w ih =>
    simp only [toLE, fromLE, ih]
    rw [pow_succ, Nat.mul_comm (256 ^ w) 256, Nat.mod_mul]

theorem toWire_length (e : Endian) (w n : Nat) : (toWire e w n).length = w := by
  cases e <;> simp [toWire, toLE_length]

theorem fromWire_toWire (e : Endian) (w n : Nat) : fromWire e (toWire e w n) = n % 256 ^ w := by
  cases e <;> simp [toWire, fromWire, fromLE_toLE]

theorem decodeScalar_encode (e : Endian) (k : ScalarKind) (n : Int) (rest : List Byte)
    (h1 : k.minValue ≤ n) (h2 : n ≤ k.maxValue) :
    decodeScalar e k (toWire e k.width (n % (256 : Int) ^ k.width).toNat ++ rest) = .ok (n, rest) := by
  unfold decodeScalar
  have hl := toWire_length e k.width (n % (256 : Int) ^ k.width).toNat
  rw [if_neg (by simp [hl])]
  rw [List.take_left' hl, List.drop_left' hl, fromWire_toWire]
  cases k <;> simp [ScalarKind.minValue, ScalarKind.maxValue, ScalarKind.width] at h1 h2 ⊢ <;> omega


/-! ### Round trip: decoding an encoding -/

theorem encodeAll_decodeN (f : Value → Except CodecError (List Byte))
    (d : List Byte → Except CodecError (Value × List Byte)) (es : List Value)
    (h : ∀ v ∈ es, ∃ b, f v = .ok b ∧ ∀ rest, d (b ++ rest) = .ok (v, rest)) :
    ∃ bs, encodeAll f es = .ok bs ∧
      ∀ rest, decodeN d es.length (bs ++ rest) = .ok (es, rest) := by
  induction es with
  | nil => exact ⟨[], rfl, fun rest => rfl⟩
  | cons v vs ih =>
    obtain ⟨b, hb, hd⟩ := h v (List.mem_cons_self _ _)
    obtain ⟨bs, hbs, hds⟩ := ih (fun w hw => h w (List.mem_cons_of_mem _ hw))
    refine ⟨b ++ bs, ?_, fun rest => ?_⟩
    · simp [encodeAll, hb, hbs]
    · simp [decodeN, List.append_assoc, hd, hds]

theorem fieldValue_of_mem_zip : ∀ (fs : List StructField) (vs : List Value),
    (fs.map StructField.name).Nodup → ∀ p ∈ fs.zip vs, fieldValue p.1.name fs vs = some p.2
  | [], _, _, p, hp => by simp at hp
  | _ :: _, [], _, p, hp => by simp at hp
  | f :: fs, v :: vs, hn, p, hp => by
    rw [List.map_cons, List.nodup_cons] at hn
    rw [List.zip_cons_cons, List.mem_cons] at hp
    rcases hp with hp | hp
    · subst hp
      simp [fieldValue]
    · have hmem : p.1.name ∈ fs.map StructField.name :=
        List.mem_map_of_mem _ (List.of_mem_zip hp).1
      have hne : f.name ≠ p.1.name := fun h => hn.1 (h ▸ hmem)
      simp only [fieldValue, if_neg hne]
      exact fieldValue_of_mem_zip fs vs hn.2 p hp

theorem arrayLen_of_mem_zip (fs : List StructField) (vs : List Value)
    (hn : (fs.map StructField.name).Nodup) (p : StructField × Value) (hp : p ∈ fs.zip vs) :
    arrayLen p.1.name fs vs = valueLen p.2 := by
  simp [arrayLen, fieldValue_of_mem_zip fs vs hn p hp]


theorem wireValue_of_countOk (tag : StrucTag) (lens : String → Option Nat) (v : Value)
    (h : countOk tag lens v = true) : wireValue tag lens v = some v := by
  cases tag with
  | untagged => rfl
  | array n => rfl
  | sizeof x =>
    simp only [countOk] at h
    simp only [wireValue]
    cases v <;> cases hl : lens x <;> simp_all

theorem counts_step (tag : StrucTag) (t : GoType) (lens : String → Option Nat) (v : Value)
    (cn : List String) (counts : List (String × Nat))
    (hT : hasType t v = true) (hC : countOk tag lens v = true)
    (hI : ∀ x ∈ cn, countFor x counts = lens x) :
    ∀ y ∈ governs tag t cn, countFor y (noteCount tag v counts) = lens y := by
  cases tag with
  | untagged => simpa [governs, noteCount] using hI
  | array n => simpa [governs, noteCount] using hI
  | sizeof x =>
    cases t with
    | scalar k =>
      cases v with
      | int n =>
        simp only [countOk] at hC
        cases hl : lens x with
        | none => simp [hl] at hC
        | some k2 =>
          simp only [hl, decide_eq_true_eq] at hC
          intro y hy
          simp only [governs, List.mem_cons] at hy
          simp only [noteCount, countFor]
          by_cases hxy : x = y
          · subst hxy
            simp [hl, hC]
          · rw [if_neg hxy]
            rcases hy with hy | hy
            · exact absurd hy.symm hxy
            · exact hI y hy
      | bytes _ => simp [hasType] at hT
      | struct _ => simp [hasType] at hT
      | list _ => simp [hasType] at hT
    | byteSlice => cases v <;> simp_all [hasType, countOk, governs, noteCount]
    | struct _ _ => cases v <;> simp_all [hasType, countOk, governs, noteCount]
    | slice _ => cases v <;> simp_all [hasType, countOk, governs, noteCount]

mutual
theorem roundtripValue (e : Endian) : ∀ (t : GoType) (tag : StrucTag) (counted : Bool)
    (cnt : Option Nat) (v : Value),
    hasType t v = true → conforms t tag v = true → wellFormed t tag counted = true →
    (counted = true → cnt = valueLen v) →
    ∃ b, encodeValue e t tag v = .ok b ∧
      ∀ rest, decodeValue e t tag cnt (b ++ rest) = .ok (v, rest)
  | .scalar k, tag, counted, cnt, v, hT, hC, hW, hcnt => by
    cases v with
    | int n =>
      simp only [hasType, decide_eq_true_eq] at hT
      refine ⟨toWire e k.width (n % (256 : Int) ^ k.width).toNat,
        by simp only [encodeValue, encodeScalar, if_pos hT], fun rest => ?_⟩
      simp only [decodeValue, decodeScalar_encode e k n rest hT.1 hT.2]
    | bytes _ => simp [hasType] at hT
    | struct _ => simp [hasType] at hT
    | list _ => simp [hasType] at hT
  | .byteSlice, tag, counted, cnt, v, hT, hC, hW, hcnt => by
    cases v with
    | bytes s =>
      cases tag with
      | array n =>
        simp only [conforms, decide_eq_true_eq] at hC
        subst hC
        refine ⟨s, by simp [encodeValue, fixedBytes], fun rest => ?_⟩
        simp [decodeValue, byteLen]
      | untagged =>
        simp only [wellFormed] at hW
        have hc := hcnt hW
        refine ⟨s, by simp [encodeValue], fun rest => ?_⟩
        simp [decodeValue, byteLen, hc, valueLen]
      | sizeof x =>
        simp only [wellFormed] at hW
        have hc := hcnt hW
        refine ⟨s, by simp [encodeValue], fun rest => ?_⟩
        simp [decodeValue, byteLen, hc, valueLen]
    | int _ => simp [hasType] at hT
    | struct _ => simp [hasType] at hT
    | list _ => simp [hasType] at hT
  | .struct name fs, tag, counted, cnt, v, hT, hC, hW, hcnt => by
    cases v with
    | struct vs =>
      simp only [hasType] at hT
      simp only [conforms] at hC
      simp only [wellFormed, Bool.and_eq_true, decide_eq_true_eq] at hW
      obtain ⟨bs, hbs, hd⟩ := roundtripFields e (fun x => arrayLen x fs vs) fs vs [] []
        hT hC hW.2 (arrayLen_of_mem_zip fs vs hW.1) (by simp)
      exact ⟨bs, by simp only [encodeValue, hbs],
        fun rest => by simp only [decodeValue, hd rest]⟩
    | int _ => simp [hasType] at hT
    | bytes _ => simp [hasType] at hT
    | list _ => simp [hasType] at hT
  | .slice t, tag, counted, cnt, v, hT, hC, hW, hcnt => by
    cases v with
    | list es =>
      simp only [hasType, List.all_eq_true] at hT
      simp only [conforms, List.all_eq_true] at hC
      simp only [wellFormed, Bool.and_eq_true] at hW
      have hc := hcnt hW.1
      obtain ⟨bs, hbs, hd⟩ := encodeAll_decodeN (encodeValue e t .untagged)
        (decodeValue e t .untagged none) es
        (fun v hv => roundtripValue e t .untagged false none v (hT v hv) (hC v hv) hW.2
          (by simp))
      refine ⟨bs, by simp only [encodeValue, hbs], fun rest => ?_⟩
      simp only [decodeValue, hc, valueLen, hd rest]
    | int _ => simp [hasType] at hT
    | bytes _ => simp [hasType] at hT
    | struct _ => simp [hasType] at hT
theorem roundtripFields (e : Endian) (lens : String → Option Nat) :
    ∀ (fs : List StructField) (vs : List Value) (cn : List String)
      (counts : List (String × Nat)),
    hasTypeFields fs vs = true → conformsFields lens fs vs = true →
    wellFormedFields cn fs = true →
    (∀ p ∈ fs.zip vs, lens p.1.name = valueLen p.2) →
    (∀ x ∈ cn, countFor x counts = lens x) →
    ∃ bs, encodeFields e lens fs vs = .ok bs ∧
      ∀ rest, decodeFields e counts fs (bs ++ rest) = .ok (vs, rest)
  | [], vs, cn, counts, hT, hC, hW, hA, hI => by
    cases vs with
    | nil => exact ⟨[], by simp [encodeFields], fun rest => by simp [decodeFields]⟩
    | cons _ _ => simp [hasTypeFields] at hT
  | .mk name t tag :: fs, vs, cn, counts, hT, hC, hW, hA, hI => by
    cases vs with
    | nil => simp [hasTypeFields] at hT
    | cons v vs =>
      simp only [hasTypeFields, Bool.and_eq_true] at hT
      simp only [conformsFields, Bool.and_eq_true] at hC
      simp only [wellFormedFields, Bool.and_eq_true] at hW
      obtain ⟨⟨hCount, hConf⟩, hCrest⟩ := hC
      have hAhead : lens name = valueLen v := hA (.mk name t tag, v) (by simp)
      have hArest : ∀ p ∈ fs.zip vs, lens p.1.name = valueLen p.2 :=
        fun p hp => hA p (by simp [hp])
      have hwv := wireValue_of_countOk tag lens v hCount
      obtain ⟨b, hb, hdb⟩ := roundtripValue e t tag (decide (name ∈ cn))
        (countFor name counts) v hT.1 hConf hW.1
        (by intro h; rw [hI name (by simpa using h)]; exact hAhead)
      obtain ⟨bs, hbs, hdbs⟩ := roundtripFields e lens fs vs (governs tag t cn)
        (noteCount tag v counts) hT.2 hCrest hW.2 hArest
        (counts_step tag t lens v cn counts hT.1 hCount hI)
      refine ⟨b ++ bs, by simp only [encodeFields, hwv, hb, hbs], fun rest => ?_⟩
      simp only [decodeFields, List.append_assoc, hdb, hdbs]
end


/-! ### Claims C1 and C2 -/

theorem wellFormed_allMessages :
    ∀ m ∈ dhcp.AllMessages ++ memif.AllMessages, wellFormed m.goType .untagged false = true := by
  decide

/-- C1. Round trip: for every message type listed by `AllMessages` of the dhcp
and memif modules, in either byte order, every value `v` of that type that
conforms to its field constraints (every `[n]byte` field holds exactly `n`
bytes, every count field equals the length of the array it governs) encodes
successfully and `decode (encode v) = v`. -/
theorem roundtrip_allMessages (e : Endian) (m : api.Message)
    (hm : m ∈ dhcp.AllMessages ++ memif.AllMessages) (v : Value)
    (hT : hasType m.goType v = true) (hC : conforms m.goType .untagged v = true) :
    ∃ bs, encode e m v = .ok bs ∧ decode e m bs = .ok v := by
  obtain ⟨bs, hbs, hd⟩ := roundtripValue e m.goType .untagged false none v hT hC
    (wellFormed_allMessages m hm) (by simp)
  refine ⟨bs, hbs, ?_⟩
  have h := hd []
  rw [List.append_nil] at h
  simp only [decode, h]

set_option maxRecDepth 4096 in
theorem roundtrip_allMessages_witness :
    ∃ bs, encode .big dhcp.DHCPProxyDetails
        (.struct [.int 1, .int 2, .int 3, .int 4, .bytes (List.replicate 129 7), .int 1,
          .bytes (List.replicate 16 9), .int 2,
          .list [.struct [.int 5, .bytes (List.replicate 16 1)],
                 .struct [.int 6, .bytes (List.replicate 16 2)]]]) = .ok bs ∧
      decode .big dhcp.DHCPProxyDetails bs =
        .ok (.struct [.int 1, .int 2, .int 3, .int 4, .bytes (List.replicate 129 7), .int 1,
          .bytes (List.replicate 16 9), .int 2,
          .list [.struct [.int 5, .bytes (List.replicate 16 1)],
                 .struct [.int 6, .bytes (List.replicate 16 2)]]]) :=
  roundtrip_allMessages .big dhcp.DHCPProxyDetails (by decide) _ (by decide) (by decide)


/-- C2. Fixed-array truncation/padding: for every byte sequence `s` and every
field declared as a `[]byte` with tag `[n]byte`, the encoding of the field is
exactly `n` bytes long; when `len(s) >= n` it is the first `n` bytes of `s`, and
when `len(s) < n` it is `s` followed by `n - len(s)` zero bytes. -/
theorem fixedArray_encoding (e : Endian) (f : StructField) (n : Nat) (s : List Byte)
    (hty : f.type = .byteSlice) (htag : f.tag = .array n) :
    ∃ out, encodeValue e f.type f.tag (.bytes s) = .ok out ∧ out.length = n ∧
      (n ≤ s.length → out = s.take n) ∧
      (s.length < n → out = s ++ List.replicate (n - s.length) 0) := by
  rw [hty, htag]
  refine ⟨fixedBytes n s, by simp only [encodeValue], ?_, ?_, ?_⟩
  · simp only [fixedBytes, List.length_append, List.length_take, List.length_replicate]
    omega
  · intro h
    simp [fixedBytes, Nat.sub_eq_zero_of_le h]
  · intro h
    simp [fixedBytes, List.take_of_length_le (Nat.le_of_lt h)]

theorem fixedArray_encoding_witness :
    ∃ out, encodeValue .big .byteSlice (.array 6) (.bytes [1, 2, 3, 4, 5, 6, 7, 8]) = .ok out ∧
      out.length = 6 ∧
      (6 ≤ [(1 : Byte), 2, 3, 4, 5, 6, 7, 8].length →
        out = [(1 : Byte), 2, 3, 4, 5, 6, 7, 8].take 6) ∧
      ([(1 : Byte), 2, 3, 4, 5, 6, 7, 8].length < 6 →
        out = [(1 : Byte), 2, 3, 4, 5, 6, 7, 8] ++
          List.replicate (6 - [(1 : Byte), 2, 3, 4, 5, 6, 7, 8].length) 0) :=
  fixedArray_encoding .big ⟨"HwAddr", .byteSlice, .array 6⟩ 6 [1, 2, 3, 4, 5, 6, 7, 8] rfl rfl


theorem wellFormed_allStructs :
    ∀ T ∈ dhcp.Types ++ (dhcp.AllMessages ++ memif.AllMessages).map api.Message.goType,
      wellFormed T .untagged false = true := by
  decide

/-! ### Inversion: a decoded value re-encodes to the bytes consumed -/

theorem fromLE_lt (a : List Byte) : fromLE a < 256 ^ a.length := by
  induction a with
  | nil => simp [fromLE]
  | cons b bs ih =>
    simp only [fromLE, List.length_cons, pow_succ]
    have := b.isLt
    omega

theorem toLE_fromLE (a : List Byte) : toLE a.length (fromLE a) = a := by
  induction a with
  | nil => rfl
  | cons b bs ih =>
    simp only [List.length_cons, toLE, fromLE]
    have hb := b.isLt
    have h1 : (b.val + 256 * fromLE bs) / 256 = fromLE bs := by omega
    have h2 : (b.val + 256 * fromLE bs) % 256 = b.val := by omega
    rw [h1, ih]
    congr 1
    exact Fin.ext h2

theorem fromWire_lt (e : Endian) (a : List Byte) : fromWire e a < 256 ^ a.length := by
  cases e
  · simpa [fromWire] using fromLE_lt a.reverse
  · simpa [fromWire] using fromLE_lt a

theorem toWire_fromWire (e : Endian) (a : List Byte) :
    toWire e a.length (fromWire e a) = a := by
  cases e
  · have := toLE_fromLE a.reverse
    simp only [List.length_reverse] at this
    simp [toWire, fromWire, this]
  · simpa [toWire, fromWire] using toLE_fromLE a

theorem decodeScalar_inv (e : Endian) (k : ScalarKind) (bs : List Byte) (n : Int)
    (rest : List Byte) (h : decodeScalar e k bs = .ok (n, rest)) :
    (k.minValue ≤ n ∧ n ≤ k.maxValue) ∧
      bs = toWire e k.width (n % (256 : Int) ^ k.width).toNat ++ rest := by
  unfold decodeScalar at h
  split at h
  · cases h
  · rename_i hlen
    have hl : (bs.take k.width).length = k.width := by
      rw [List.length_take]; omega
    have hu := fromWire_lt e (bs.take k.width)
    rw [hl] at hu
    have hw := toWire_fromWire e (bs.take k.width)
    rw [hl] at hw
    simp only [Except.ok.injEq, Prod.mk.injEq] at h
    obtain ⟨hn, hr⟩ := h
    have key : (k.minValue ≤ n ∧ n ≤ k.maxValue) ∧
        (n % (256 : Int) ^ k.width).toNat = fromWire e (bs.take k.width) := by
      rw [← hn]
      generalize fromWire e (bs.take k.width) = u at hu
      cases k <;>
        simp only [ScalarKind.minValue, ScalarKind.maxValue, ScalarKind.width] at hu ⊢ <;>
        norm_num at hu ⊢ <;> split <;> omega
    refine ⟨key.1, ?_⟩
    rw [key.2, hw, ← hr, List.take_append_drop]



theorem decodeN_error (d : List Byte → Except CodecError (Value × List Byte))
    (hd : ∀ bs err, d bs = .error err → err = .MalformedMessage) :
    ∀ (k : Nat) (bs : List Byte) (err : CodecError),
      decodeN d k bs = .error err → err = .MalformedMessage
  | 0, bs, err, h => by simp [decodeN] at h
  | k + 1, bs, err, h => by
    simp only [decodeN] at h
    split at h
    · rename_i err2 h2
      cases h
      exact hd bs _ h2
    · split at h
      · rename_i err2 h3
        cases h
        exact decodeN_error d hd k _ _ h3
      · cases h

mutual
theorem decodeValue_error (e : Endian) : ∀ (t : GoType) (tag : StrucTag) (cnt : Option Nat)
    (bs : List Byte) (err : CodecError),
    decodeValue e t tag cnt bs = .error err → err = .MalformedMessage
  | .scalar k, tag, cnt, bs, err, h => by
    simp only [decodeValue, decodeScalar] at h
    split at h
    · rename_i err2 h2
      split at h2
      · cases h2; cases h; rfl
      · cases h2
    · cases h
  | .byteSlice, tag, cnt, bs, err, h => by
    simp only [decodeValue] at h
    split at h
    · cases h; rfl
    · split at h
      · cases h
      · cases h; rfl
  | .struct name fs, tag, cnt, bs, err, h => by
    simp only [decodeValue] at h
    split at h
    · rename_i err2 h2
      cases h
      exact decodeFields_error e fs [] bs _ h2
    · cases h
  | .slice t, tag, cnt, bs, err, h => by
    simp only [decodeValue] at h
    split at h
    · cases h; rfl
    · split at h
      · rename_i err2 h2
        cases h
        exact decodeN_error _ (fun bs err h => decodeValue_error e t .untagged none bs err h)
          _ _ _ h2
      · cases h
theorem decodeFields_error (e : Endian) : ∀ (fs : List StructField)
    (counts : List (String × Nat)) (bs : List Byte) (err : CodecError),
    decodeFields e counts fs bs = .error err → err = .MalformedMessage
  | [], counts, bs, err, h => by simp [decodeFields] at h
  | .mk name t tag :: fs, counts, bs, err, h => by
    simp only [decodeFields] at h
    split at h
    · rename_i err2 h2
      cases h
      exact decodeValue_error e t tag _ bs _ h2
    · split at h
      · rename_i err2 h3
        cases h
        exact decodeFields_error e fs _ _ _ h3
      · cases h
end

theorem decodeN_inv (f : Value → Except CodecError (List Byte))
    (d : List Byte → Except CodecError (Value × List Byte))
    (hd : ∀ bs v rest, d bs = .ok (v, rest) → ∃ pre, bs = pre ++ rest ∧ f v = .ok pre) :
    ∀ (k : Nat) (bs : List Byte) (es : List Value) (rest : List Byte),
      decodeN d k bs = .ok (es, rest) →
      es.length = k ∧ ∃ pre, bs = pre ++ rest ∧ encodeAll f es = .ok pre
  | 0, bs, es, rest, h => by
    simp only [decodeN, Except.ok.injEq, Prod.mk.injEq] at h
    obtain ⟨h1, h2⟩ := h
    subst h1 h2
    exact ⟨rfl, [], rfl, rfl⟩
  | k + 1, bs, es, rest, h => by
    simp only [decodeN] at h
    split at h
    · cases h
    · rename_i v r1 h1
      split at h
      · cases h
      · rename_i vs r2 h2
        simp only [Except.ok.injEq, Prod.mk.injEq] at h
        obtain ⟨h3, h4⟩ := h
        subst h3 h4
        obtain ⟨p1, hp1, hf1⟩ := hd bs v r1 h1
        obtain ⟨hlen, p2, hp2, hf2⟩ := decodeN_inv f d hd k r1 vs r2 h2
        refine ⟨by simp [hlen], p1 ++ p2, by rw [hp1, hp2, List.append_assoc], ?_⟩
        simp only [encodeAll, hf1, hf2]

theorem decodeN_length (d : List Byte → Except CodecError (Value × List Byte)) :
    ∀ (k : Nat) (bs : List Byte) (es : List Value) (rest : List Byte),
      decodeN d k bs = .ok (es, rest) → es.length = k
  | 0, bs, es, rest, h => by
    simp only [decodeN, Except.ok.injEq, Prod.mk.injEq] at h
    rw [← h.1]; rfl
  | k + 1, bs, es, rest, h => by
    simp only [decodeN] at h
    split at h
    · cases h
    · rename_i v r1 h1
      split at h
      · cases h
      · rename_i vs r2 h2
        simp only [Except.ok.injEq, Prod.mk.injEq] at h
        rw [← h.1, List.length_cons, decodeN_length d k r1 vs r2 h2]


theorem decodeValue_valueLen (e : Endian) (t : GoType) (tag : StrucTag) (cnt : Option Nat)
    (bs : List Byte) (v : Value) (rest : List Byte)
    (h : decodeValue e t tag cnt bs = .ok (v, rest)) (hc : isCountedArray t tag = true) :
    valueLen v = cnt := by
  cases t with
  | scalar k => simp [isCountedArray] at hc
  | struct _ _ => simp [isCountedArray] at hc
  | byteSlice =>
    simp only [decodeValue] at h
    cases tag with
    | array n => simp [isCountedArray] at hc
    | untagged =>
      simp only [byteLen] at h
      split at h
      · cases h
      · rename_i n
        split at h
        · rename_i hle
          simp only [Except.ok.injEq, Prod.mk.injEq] at h
          rw [← h.1]
          simp only [valueLen, List.length_take]
          congr 1
          omega
        · cases h
    | sizeof x =>
      simp only [byteLen] at h
      split at h
      · cases h
      · rename_i n
        split at h
        · rename_i hle
          simp only [Except.ok.injEq, Prod.mk.injEq] at h
          rw [← h.1]
          simp only [valueLen, List.length_take]
          congr 1
          omega
        · cases h
  | slice t =>
    simp only [decodeValue] at h
    split at h
    · cases h
    · rename_i k
      split at h
      · cases h
      · rename_i es r hes
        simp only [Except.ok.injEq, Prod.mk.injEq] at h
        rw [← h.1]
        simp only [valueLen, decodeN_length _ _ _ _ _ hes]

theorem decodeValue_unsigned (e : Endian) (t : GoType) (tag : StrucTag) (cnt : Option Nat)
    (bs : List Byte) (v : Value) (rest : List Byte)
    (h : decodeValue e t tag cnt bs = .ok (v, rest)) (hu : isUnsigned t = true) :
    ∃ n : Nat, v = .int n := by
  cases t with
  | byteSlice => simp [isUnsigned] at hu
  | struct _ _ => simp [isUnsigned] at hu
  | slice _ => simp [isUnsigned] at hu
  | scalar k =>
    simp only [decodeValue] at h
    split at h
    · cases h
    · rename_i n r hn
      simp only [Except.ok.injEq, Prod.mk.injEq] at h
      have hr := (decodeScalar_inv e k bs n r hn).1.1
      refine ⟨n.toNat, ?_⟩
      rw [← h.1]
      congr 1
      cases k <;> simp [isUnsigned, ScalarKind.signed, ScalarKind.minValue] at hu hr <;> omega

theorem arrayLen_cons_ne (c x : String) (t : GoType) (tag : StrucTag)
    (fs : List StructField) (v : Value) (vs : List Value) (h : c ≠ x) :
    arrayLen x (.mk c t tag :: fs) (v :: vs) = arrayLen x fs vs := by
  simp [arrayLen, fieldValue, StructField.name, h]

theorem arrayLen_mem (x : String) : ∀ (fs : List StructField) (vs : List Value) (k : Nat),
    arrayLen x fs vs = some k → x ∈ fs.map StructField.name
  | [], vs, k, h => by simp [arrayLen, fieldValue] at h
  | f :: fs, [], k, h => by simp [arrayLen, fieldValue] at h
  | f :: fs, v :: vs, k, h => by
    by_cases hx : f.name = x
    · simp [hx]
    · have : arrayLen x fs vs = some k := by
        simpa [arrayLen, fieldValue, hx] using h
      simp [arrayLen_mem x fs vs k this]

theorem hasCountedArray_mem (x : String) (fs : List StructField)
    (h : hasCountedArray x fs = true) : x ∈ fs.map StructField.name := by
  simp only [hasCountedArray, List.any_eq_true, Bool.and_eq_true, decide_eq_true_eq] at h
  obtain ⟨f, hf, hn, _⟩ := h
  exact hn ▸ List.mem_map_of_mem _ hf


theorem countFor_noteCount (tag : StrucTag) (v : Value) (counts : List (String × Nat))
    (x : String) (h : ∀ y, tag = .sizeof y → y ≠ x) :
    countFor x (noteCount tag v counts) = countFor x counts := by
  cases tag with
  | untagged => rfl
  | array n => rfl
  | sizeof y =>
    cases v with
    | int n => simp [noteCount, countFor, h y rfl]
    | bytes _ => rfl
    | struct _ => rfl
    | list _ => rfl

theorem decodeFields_counts (e : Endian) : ∀ (fs : List StructField)
    (counts : List (String × Nat)) (bs : List Byte) (vs : List Value) (rest : List Byte),
    decodeFields e counts fs bs = .ok (vs, rest) → countsStrict fs = true →
    (∀ p ∈ fs.zip vs, ∀ x, p.1.tag = .sizeof x →
      ∃ n : Nat, p.2 = .int n ∧ arrayLen x fs vs = some n) ∧
    (∀ x k, countFor x counts = some k → x ∉ sizeofTargets fs →
      hasCountedArray x fs = true → arrayLen x fs vs = some k)
  | [], counts, bs, vs, rest, h, hs => by
    constructor
    · intro p hp; simp at hp
    · intro x k _ _ hh; simp [hasCountedArray] at hh
  | .mk c t tag :: fs, counts, bs, vs, rest, h, hs => by
    simp only [decodeFields] at h
    split at h
    · cases h
    · rename_i v r1 h1
      split at h
      · cases h
      · rename_i vs2 r2 h2
        simp only [Except.ok.injEq, Prod.mk.injEq] at h
        obtain ⟨hvs, hrest⟩ := h
        subst hvs hrest
        simp only [countsStrict, Bool.and_eq_true, decide_eq_true_eq] at hs
        obtain ⟨⟨hc, htag⟩, hs2⟩ := hs
        obtain ⟨ihA, ihB⟩ := decodeFields_counts e fs (noteCount tag v counts) r1 vs2 r2 h2 hs2
        constructor
        · intro p hp x hx
          rw [List.zip_cons_cons, List.mem_cons] at hp
          rcases hp with hp | hp
          · subst hp
            simp only [StructField.tag] at hx
            subst hx
            simp only [Bool.and_eq_true, decide_eq_true_eq] at htag
            obtain ⟨⟨hu, hhas⟩, hnt⟩ := htag
            obtain ⟨n, hn⟩ := decodeValue_unsigned e t _ _ bs v r1 h1 hu
            subst hn
            have hxc : c ≠ x := fun h => hc (h ▸ hasCountedArray_mem x fs hhas)
            refine ⟨n, rfl, ?_⟩
            rw [arrayLen_cons_ne c x t _ fs _ vs2 hxc]
            exact ihB x n (by simp [noteCount, countFor]) hnt hhas
          · obtain ⟨n, hn, hl⟩ := ihA p hp x hx
            refine ⟨n, hn, ?_⟩
            have hxc : c ≠ x := fun h => hc (h ▸ arrayLen_mem x fs vs2 n hl)
            rw [arrayLen_cons_ne c x t tag fs v vs2 hxc]
            exact hl
        · intro x k hk hnt hhas
          by_cases hcx : c = x
          · subst hcx
            simp only [hasCountedArray, List.any_cons, StructField.name, StructField.type,
              StructField.tag, decide_True, Bool.true_and, Bool.or_eq_true] at hhas
            rcases hhas with hh | hh
            · have := decodeValue_valueLen e t tag _ bs v r1 h1 hh
              simp [arrayLen, fieldValue, StructField.name, this, hk]
            · exact absurd (hasCountedArray_mem c fs hh) hc
          · rw [arrayLen_cons_ne c x t tag fs v vs2 hcx]
            have hnt2 : x ∉ sizeofTargets fs := by
              intro hmem
              apply hnt
              cases tag <;> simp [sizeofTargets, hmem]
            have hhas2 : hasCountedArray x fs = true := by
              simpa [hasCountedArray, List.any_cons, StructField.name, hcx] using hhas
            refine ihB x k ?_ hnt2 hhas2
            rw [countFor_noteCount tag v counts x]
            · exact hk
            · intro y hy hyx
              apply hnt
              simp [hy, sizeofTargets, hyx]


mutual
theorem decodeValue_inv (e : Endian) : ∀ (t : GoType) (tag : StrucTag) (cnt : Option Nat)
    (bs : List Byte) (v : Value) (rest : List Byte),
    invertible t = true → decodeValue e t tag cnt bs = .ok (v, rest) →
    ∃ pre, bs = pre ++ rest ∧ encodeValue e t tag v = .ok pre
  | .scalar k, tag, cnt, bs, v, rest, _, h => by
    simp only [decodeValue] at h
    split at h
    · cases h
    · rename_i n r hn
      simp only [Except.ok.injEq, Prod.mk.injEq] at h
      obtain ⟨hv, hr⟩ := h
      subst hv hr
      obtain ⟨hrange, hb⟩ := decodeScalar_inv e k bs n r hn
      exact ⟨_, hb, by simp only [encodeValue, encodeScalar, if_pos hrange]⟩
  | .byteSlice, tag, cnt, bs, v, rest, _, h => by
    simp only [decodeValue] at h
    split at h
    · cases h
    · rename_i n hn
      split at h
      · rename_i hle
        simp only [Except.ok.injEq, Prod.mk.injEq] at h
        obtain ⟨hv, hr⟩ := h
        subst hv hr
        refine ⟨bs.take n, (List.take_append_drop n bs).symm, ?_⟩
        cases tag with
        | untagged => simp only [encodeValue]
        | sizeof x => simp only [encodeValue]
        | array m =>
          simp only [byteLen, Option.some.injEq] at hn
          subst hn
          simp only [encodeValue, fixedBytes, List.take_take, Nat.min_self, List.length_take]
          rw [Nat.min_eq_left hle, Nat.sub_self]
          simp
      · cases h
  | .struct name fs, tag, cnt, bs, v, rest, hi, h => by
    simp only [decodeValue] at h
    split at h
    · cases h
    · rename_i vs r hd
      simp only [Except.ok.injEq, Prod.mk.injEq] at h
      obtain ⟨hv, hr⟩ := h
      subst hv hr
      simp only [invertible, Bool.and_eq_true] at hi
      obtain ⟨pre, hpre, henc⟩ := decodeFields_inv e fs [] bs vs r hi.2 hd
      refine ⟨pre, hpre, ?_⟩
      simp only [encodeValue]
      exact henc _ (decodeFields_counts e fs [] bs vs r hd hi.1).1
  | .slice t, tag, cnt, bs, v, rest, hi, h => by
    simp only [decodeValue] at h
    split at h
    · cases h
    · rename_i k
      split at h
      · cases h
      · rename_i es r hd
        simp only [Except.ok.injEq, Prod.mk.injEq] at h
        obtain ⟨hv, hr⟩ := h
        subst hv hr
        simp only [invertible] at hi
        obtain ⟨_, pre, hpre, henc⟩ := decodeN_inv (encodeValue e t .untagged)
          (decodeValue e t .untagged none)
          (fun bs v rest hv => decodeValue_inv e t .untagged none bs v rest hi hv) k bs es r hd
        exact ⟨pre, hpre, by simp only [encodeValue, henc]⟩
theorem decodeFields_inv (e : Endian) : ∀ (fs : List StructField)
    (counts : List (String × Nat)) (bs : List Byte) (vs : List Value) (rest : List Byte),
    invertibleFields fs = true → decodeFields e counts fs bs = .ok (vs, rest) →
    ∃ pre, bs = pre ++ rest ∧ ∀ lens : String → Option Nat,
      (∀ p ∈ fs.zip vs, ∀ x, p.1.tag = .sizeof x → ∃ n : Nat, p.2 = .int n ∧ lens x = some n) →
      encodeFields e lens fs vs = .ok pre
  | [], counts, bs, vs, rest, _, h => by
    simp only [decodeFields, Except.ok.injEq, Prod.mk.injEq] at h
    obtain ⟨hv, hr⟩ := h
    subst hv hr
    exact ⟨[], rfl, fun lens _ => by simp only [encodeFields]⟩
  | .mk c t tag :: fs, counts, bs, vs, rest, hi, h => by
    simp only [decodeFields] at h
    split at h
    · cases h
    · rename_i v r1 h1
      split at h
      · cases h
      · rename_i vs2 r2 h2
        simp only [Except.ok.injEq, Prod.mk.injEq] at h
        obtain ⟨hvs, hrest⟩ := h
        subst hvs hrest
        simp only [invertibleFields, Bool.and_eq_true] at hi
        obtain ⟨p1, hp1, he1⟩ := decodeValue_inv e t tag _ bs v r1 hi.1 h1
        obtain ⟨p2, hp2, he2⟩ := decodeFields_inv e fs _ r1 vs2 r2 hi.2 h2
        refine ⟨p1 ++ p2, by rw [hp1, hp2, List.append_assoc], fun lens hl => ?_⟩
        have hw : wireValue tag lens v = some v := by
          cases tag with
          | untagged => rfl
          | array n => rfl
          | sizeof x =>
            obtain ⟨n, hn, hx⟩ := hl (.mk c t (.sizeof x), v) (by simp) x rfl
            simp only at hn
            simp only [wireValue, hx, hn]
        have he2b := he2 lens (fun p hp => hl p (by simp [hp]))
        simp only [encodeFields, hw, he1, he2b]
end

theorem invertible_allMessages :
    ∀ m ∈ dhcp.AllMessages ++ memif.AllMessages, invertible m.goType = true := by
  decide

theorem decode_ok_or_malformed (e : Endian) (m : api.Message)
    (hm : m ∈ dhcp.AllMessages ++ memif.AllMessages) (bs : List Byte) :
    decode e m bs = .error .MalformedMessage ∨
      ∃ v pre rest, decode e m bs = .ok v ∧ bs = pre ++ rest ∧ encode e m v = .ok pre := by
  cases h : decodeValue e m.goType .untagged none bs with
  | error err =>
    left
    simp only [decode, h, decodeValue_error e _ _ _ _ _ h]
  | ok r =>
    right
    obtain ⟨v, rest⟩ := r
    obtain ⟨pre, hpre, henc⟩ := decodeValue_inv e _ _ _ _ _ _ (invertible_allMessages m hm) h
    exact ⟨v, pre, rest, by simp only [decode, h], hpre, henc⟩


/-! ### Short buffers -/

theorem decodeN_short (d : List Byte → Except CodecError (Value × List Byte)) (w : Nat)
    (hd : ∀ bs, (bs.length < w → d bs = .error .MalformedMessage) ∧
      (w ≤ bs.length → ∃ v, d bs = .ok (v, bs.drop w))) :
    ∀ (k : Nat) (bs : List Byte), bs.length < k * w →
      decodeN d k bs = .error .MalformedMessage
  | 0, bs, h => by simp at h
  | k + 1, bs, h => by
    simp only [decodeN]
    by_cases hb : bs.length < w
    · rw [(hd bs).1 hb]
    · obtain ⟨v, hv⟩ := (hd bs).2 (by omega)
      rw [hv]
      simp only
      rw [decodeN_short d w hd k (bs.drop w) (by
        rw [List.length_drop]
        have : (k + 1) * w = k * w + w := by ring
        omega)]

theorem decodeValue_fieldWidth (e : Endian) (t : GoType) (tag : StrucTag) (w : Nat)
    (hw : fieldWidth t tag = some w) (cnt : Option Nat) (bs : List Byte) :
    (bs.length < w → decodeValue e t tag cnt bs = .error .MalformedMessage) ∧
    (w ≤ bs.length → ∃ v, decodeValue e t tag cnt bs = .ok (v, bs.drop w)) := by
  cases t with
  | struct _ _ => simp [fieldWidth] at hw
  | slice _ => simp [fieldWidth] at hw
  | scalar k =>
    have hk : k.width = w := by
      cases tag <;> simp [fieldWidth] at hw <;> exact hw
    subst hk
    constructor
    · intro h
      simp only [decodeValue, decodeScalar, if_pos h]
    · intro h
      simp only [decodeValue, decodeScalar, if_neg (Nat.not_lt.mpr h)]
      exact ⟨_, rfl⟩
  | byteSlice =>
    cases tag with
    | untagged => simp [fieldWidth] at hw
    | sizeof _ => simp [fieldWidth] at hw
    | array n =>
      simp only [fieldWidth, Option.some.injEq] at hw
      subst hw
      constructor
      · intro h
        simp only [decodeValue, byteLen, if_neg (Nat.not_le.mpr h)]
      · intro h
        simp only [decodeValue, byteLen, if_pos h]
        exact ⟨_, rfl⟩

theorem noteCount_fieldWidth (t : GoType) (tag : StrucTag) (w : Nat)
    (hw : fieldWidth t tag = some w) (v : Value) (counts : List (String × Nat)) :
    noteCount tag v counts = counts := by
  cases tag with
  | untagged => rfl
  | array n => rfl
  | sizeof x => cases t <;> simp [fieldWidth] at hw

theorem decodeFields_static (e : Endian) : ∀ (fs : List StructField) (w : Nat),
    staticWidth fs = some w → ∀ (tl : List StructField) (counts : List (String × Nat))
      (bs : List Byte),
    (bs.length < w → decodeFields e counts (fs ++ tl) bs = .error .MalformedMessage) ∧
    (w ≤ bs.length → ∃ vs, decodeFields e counts (fs ++ tl) bs =
      match decodeFields e counts tl (bs.drop w) with
      | .error err => .error err
      | .ok (vs2, r) => .ok (vs ++ vs2, r))
  | [], w, hw, tl, counts, bs => by
    simp only [staticWidth, Option.some.injEq] at hw
    subst hw
    refine ⟨fun h => absurd h (Nat.not_lt_zero _), fun _ => ⟨[], ?_⟩⟩
    simp only [List.nil_append, List.drop_zero]
    cases decodeFields e counts tl bs with
    | error err => rfl
    | ok r => rfl
  | .mk name t tag :: fs, w, hw, tl, counts, bs => by
    simp only [staticWidth] at hw
    cases h1 : fieldWidth t tag with
    | none => simp [h1] at hw
    | some w1 =>
      cases h2 : staticWidth fs with
      | none => simp [h1, h2] at hw
      | some w2 =>
        simp only [h1, h2, Option.some.injEq] at hw
        subst hw
        have hf := decodeValue_fieldWidth e t tag w1 h1 (countFor name counts) bs
        have ih := decodeFields_static e fs w2 h2 tl counts (bs.drop w1)
        simp only [List.cons_append, decodeFields, List.append_eq]
        constructor
        · intro h
          by_cases hb : bs.length < w1
          · rw [hf.1 hb]
          · obtain ⟨v, hv⟩ := hf.2 (by omega)
            rw [hv]
            simp only [noteCount_fieldWidth t tag w1 h1]
            rw [ih.1 (by rw [List.length_drop]; omega)]
        · intro h
          obtain ⟨v, hv⟩ := hf.2 (by omega)
          obtain ⟨vs, hvs⟩ := ih.2 (by rw [List.length_drop]; omega)
          refine ⟨v :: vs, ?_⟩
          rw [hv]
          simp only [noteCount_fieldWidth t tag w1 h1]
          rw [hvs, List.drop_drop]
          cases decodeFields e counts tl (List.drop (w1 + w2) bs) with
          | error err => rfl
          | ok r => rfl

theorem decodeValue_static (e : Endian) (name : String) (fs : List StructField) (w : Nat)
    (hw : staticWidth fs = some w) (tag : StrucTag) (cnt : Option Nat) (bs : List Byte) :
    (bs.length < w →
      decodeValue e (.struct name fs) tag cnt bs = .error .MalformedMessage) ∧
    (w ≤ bs.length → ∃ v, decodeValue e (.struct name fs) tag cnt bs = .ok (v, bs.drop w)) := by
  have h := decodeFields_static e fs w hw [] [] bs
  rw [List.append_nil] at h
  constructor
  · intro hb
    simp only [decodeValue, h.1 hb]
  · intro hb
    obtain ⟨vs, hvs⟩ := h.2 hb
    simp only [decodeValue, hvs, decodeFields]
    exact ⟨_, rfl⟩


theorem decodeScalar_U8 (e : Endian) (k : Byte) (tail : List Byte) :
    decodeScalar e .U8 (k :: tail) = .ok ((k.val : Int), tail) := by
  have hk := k.isLt
  cases e <;>
    simp [decodeScalar, ScalarKind.width, ScalarKind.maxValue, fromWire, fromLE] <;> omega

theorem decodeValue_scalar_eq (e : Endian) (k : ScalarKind) (tag : StrucTag) (cnt : Option Nat)
    (bs : List Byte) :
    decodeValue e (.scalar k) tag cnt bs =
      match decodeScalar e k bs with
      | .error err => .error err
      | .ok (n, rest) => .ok (.int n, rest) := by
  simp only [decodeValue]

theorem decodeValue_struct_eq (e : Endian) (name : String) (fs : List StructField)
    (tag : StrucTag) (cnt : Option Nat) (bs : List Byte) :
    decodeValue e (.struct name fs) tag cnt bs =
      match decodeFields e [] fs bs with
      | .error err => .error err
      | .ok (vs, rest) => .ok (.struct vs, rest) := by
  simp only [decodeValue]

theorem decodeValue_slice_eq (e : Endian) (t : GoType) (tag : StrucTag) (k : Nat)
    (bs : List Byte) :
    decodeValue e (.slice t) tag (some k) bs =
      match decodeN (decodeValue e t .untagged none) k bs with
      | .error err => .error err
      | .ok (vs, rest) => .ok (.list vs, rest) := by
  simp only [decodeValue]

theorem decodeFields_cons_eq (e : Endian) (counts : List (String × Nat)) (name : String)
    (t : GoType) (tag : StrucTag) (fs : List StructField) (bs : List Byte) :
    decodeFields e counts (.mk name t tag :: fs) bs =
      match decodeValue e t tag (countFor name counts) bs with
      | .error err => .error err
      | .ok (v, rest) =>
        match decodeFields e (noteCount tag v counts) fs rest with
        | .error err => .error err
        | .ok (vs, rest2) => .ok (v :: vs, rest2) := by
  simp only [decodeFields]

theorem decodeFields_next_short (e : Endian) (counts : List (String × Nat)) (name : String)
    (t : GoType) (tag : StrucTag) (w : Nat) (fs : List StructField) (bs : List Byte)
    (hw : fieldWidth t tag = some w) (hb : bs.length < w) :
    decodeFields e counts (.mk name t tag :: fs) bs = .error .MalformedMessage := by
  rw [decodeFields_cons_eq, (decodeValue_fieldWidth e t tag w hw _ bs).1 hb]

theorem decodeValue_slice_short (e : Endian) (nm : String) (ef : List StructField)
    (tag : StrucTag) (w k : Nat) (bs : List Byte)
    (hw : staticWidth ef = some w) (hb : bs.length < k * w) :
    decodeValue e (.slice (.struct nm ef)) tag (some k) bs = .error .MalformedMessage := by
  rw [decodeValue_slice_eq,
    decodeN_short _ w (fun bs => decodeValue_static e nm ef w hw .untagged none bs) k bs hb]

theorem decodeFields_count_short (e : Endian) (counts : List (String × Nat)) (name nm : String)
    (ef : List StructField) (tag : StrucTag) (w k : Nat) (fs : List StructField)
    (bs : List Byte) (hw : staticWidth ef = some w) (hk : countFor name counts = some k)
    (hb : bs.length < k * w) :
    decodeFields e counts (.mk name (.slice (.struct nm ef)) tag :: fs) bs =
      .error .MalformedMessage := by
  rw [decodeFields_cons_eq, hk, decodeValue_slice_short e nm ef tag w k bs hw hb]

theorem decode_static_short (e : Endian) (m : api.Message) (w : Nat)
    (hw : staticWidth m.fields = some w) (bs : List Byte) (hb : bs.length < w) :
    decode e m bs = .error .MalformedMessage := by
  simp only [decode, api.Message.goType]
  rw [(decodeValue_static e m.typeName m.fields w hw .untagged none bs).1 hb]

theorem decode_DHCPProxyDetails_short (e : Endian) (hdr : List Byte) (k : Byte)
    (tail : List Byte) (hlen : hdr.length = 159) (ht : tail.length < 20 * k.val) :
    decode e dhcp.DHCPProxyDetails (hdr ++ k :: tail) = .error .MalformedMessage := by
  have hsplit : dhcp.DHCPProxyDetails.fields =
      dhcp.DHCPProxyDetails.fields.take 7 ++
        [.mk "Count" .uint8 (.sizeof "Servers"), .mk "Servers" (.slice dhcp.DHCPServer) .untagged] :=
    rfl
  have hst : staticWidth (dhcp.DHCPProxyDetails.fields.take 7) = some 159 := rfl
  obtain ⟨vs, hvs⟩ := (decodeFields_static e _ 159 hst
    [.mk "Count" .uint8 (.sizeof "Servers"), .mk "Servers" (.slice dhcp.DHCPServer) .untagged]
    [] (hdr ++ k :: tail)).2 (by simp [hlen])
  rw [← hsplit, List.drop_left' hlen] at hvs
  have hsl : decodeValue e (.slice dhcp.DHCPServer) .untagged (some k.val) tail =
      .error .MalformedMessage :=
    decodeValue_slice_short e "DHCPServer" _ .untagged 20 k.val tail rfl (by omega)
  have hcnt : decodeFields e []
      [.mk "Count" .uint8 (.sizeof "Servers"), .mk "Servers" (.slice dhcp.DHCPServer) .untagged]
      (k :: tail) = .error .MalformedMessage := by
    rw [decodeFields_cons_eq, decodeValue_scalar_eq, decodeScalar_U8]
    simp only [noteCount, Int.toNat_ofNat]
    rw [decodeFields_cons_eq]
    simp only [countFor, if_true]
    rw [hsl]
  simp only [decode, api.Message.goType]
  rw [decodeValue_struct_eq, hvs, hcnt]


/-! ### Claim C4 -/

/-- C4. Decoding rejects short input, in either byte order.  For every message of
the two modules and every buffer, `decode` either fails with `MalformedMessage`
or returns a value whose encoding is a prefix of the buffer, so every byte of the
value was present.  Inside a struct, decoding fails with `MalformedMessage` when
fewer bytes remain than the next field's declared width, and when the decoded
count of a slice says `k` but fewer than `k` element widths remain.  A message of
declared width `w` (such as `MemifDetails`, 92 bytes) is rejected on fewer than
`w` bytes, and a `DHCPProxyDetails` buffer whose `Count` byte is `k` followed by
fewer than `20 * k` bytes is rejected. -/
theorem decode_rejects_short_input (e : Endian) :
    (∀ m ∈ dhcp.AllMessages ++ memif.AllMessages, ∀ bs : List Byte,
      decode e m bs = .error .MalformedMessage ∨
        ∃ v pre rest, decode e m bs = .ok v ∧ bs = pre ++ rest ∧ encode e m v = .ok pre) ∧
    (∀ (counts : List (String × Nat)) (name : String) (t : GoType) (tag : StrucTag) (w : Nat)
        (fs : List StructField) (bs : List Byte),
      fieldWidth t tag = some w → bs.length < w →
      decodeFields e counts (.mk name t tag :: fs) bs = .error .MalformedMessage) ∧
    (∀ (counts : List (String × Nat)) (name nm : String) (ef : List StructField)
        (tag : StrucTag) (w k : Nat) (fs : List StructField) (bs : List Byte),
      staticWidth ef = some w → countFor name counts = some k → bs.length < k * w →
      decodeFields e counts (.mk name (.slice (.struct nm ef)) tag :: fs) bs =
        .error .MalformedMessage) ∧
    (∀ m ∈ dhcp.AllMessages ++ memif.AllMessages, ∀ w, staticWidth m.fields = some w →
      ∀ bs : List Byte, bs.length < w → decode e m bs = .error .MalformedMessage) ∧
    staticWidth memif.MemifDetails.fields = some 92 ∧
    (∀ (hdr : List Byte) (k : Byte) (tail : List Byte),
      hdr.length = 159 → tail.length < 20 * k.val →
      decode e dhcp.DHCPProxyDetails (hdr ++ k :: tail) = .error .MalformedMessage) :=
  ⟨fun m hm bs => decode_ok_or_malformed e m hm bs,
   fun counts name t tag w fs bs hw hb => decodeFields_next_short e counts name t tag w fs bs hw hb,
   fun counts name nm ef tag w k fs bs hw hk hb =>
     decodeFields_count_short e counts name nm ef tag w k fs bs hw hk hb,
   fun m _ w hw bs hb => decode_static_short e m w hw bs hb,
   rfl,
   fun hdr k tail hlen ht => decode_DHCPProxyDetails_short e hdr k tail hlen ht⟩

theorem decode_rejects_short_input_witness :
    decode .big dhcp.DHCPProxyDetails (List.replicate 159 0 ++ 2 :: List.replicate 39 0) =
      .error .MalformedMessage :=
  (decode_rejects_short_input .big).2.2.2.2.2 (List.replicate 159 0) 2 (List.replicate 39 0)
    (by simp) (by decide)

end codec

/-! ## Theorems: declarations, CRCs and registration (claims C5 to C10) -/

theorem isArray_exists (tag : StrucTag) (h : tag.isArray = true) : ∃ n, tag = .array n := by
  cases tag with
  | untagged => simp [StrucTag.isArray] at h
  | sizeof x => simp [StrucTag.isArray] at h
  | array n => exact ⟨n, rfl⟩

theorem declaredStructs_counts :
    ∀ fs ∈ declaredStructs,
      (∀ i : Fin fs.length, (fs.get i).type.isSlice = true →
        ∃ j : Fin fs.length, j < i ∧ (fs.get j).tag = .sizeof (fs.get i).name ∧
          codec.isUnsigned (fs.get j).type = true ∧
          ∀ j2 : Fin fs.length, (fs.get j2).tag = .sizeof (fs.get i).name → j2 = j) ∧
      (∀ x ∈ codec.sizeofTargets fs, ∃ f ∈ fs, f.name = x ∧ f.type.isSlice = true) ∧
      (∀ f ∈ fs, f.type = .byteSlice → f.tag.isArray = true) := by
  decide

/-- C5. Schema well-formedness of counted fields: in every type and message of
the dhcp and memif modules, every slice field (variable-length array) is governed
by exactly one count field, a field tagged `sizeof=<that field>` which has an
unsigned integer type and is declared earlier in the same struct; every `sizeof`
tag names an existing slice field of its struct; and every `[]byte` field carries
a fixed-length tag `[n]byte`. -/
theorem counted_fields_wellFormed (fs : List StructField) (hfs : fs ∈ declaredStructs) :
    (∀ i : Fin fs.length, (fs.get i).type.isSlice = true →
      ∃ j : Fin fs.length, j < i ∧ (fs.get j).tag = .sizeof (fs.get i).name ∧
        codec.isUnsigned (fs.get j).type = true ∧
        ∀ j2 : Fin fs.length, (fs.get j2).tag = .sizeof (fs.get i).name → j2 = j) ∧
    (∀ x ∈ codec.sizeofTargets fs, ∃ f ∈ fs, f.name = x ∧ f.type.isSlice = true) ∧
    (∀ f ∈ fs, f.type = .byteSlice → ∃ n, f.tag = .array n) := by
  obtain ⟨h1, h2, h3⟩ := declaredStructs_counts fs hfs
  exact ⟨h1, h2, fun f hf hb => isArray_exists f.tag (h3 f hf hb)⟩

theorem counted_fields_wellFormed_witness :
    (∀ i : Fin dhcp.DHCPLease.structFields.length,
      (dhcp.DHCPLease.structFields.get i).type.isSlice = true →
      ∃ j : Fin dhcp.DHCPLease.structFields.length, j < i ∧
        (dhcp.DHCPLease.structFields.get j).tag =
          .sizeof (dhcp.DHCPLease.structFields.get i).name ∧
        codec.isUnsigned (dhcp.DHCPLease.structFields.get j).type = true ∧
        ∀ j2 : Fin dhcp.DHCPLease.structFields.length,
          (dhcp.DHCPLease.structFields.get j2).tag =
            .sizeof (dhcp.DHCPLease.structFields.get i).name → j2 = j) ∧
    (∀ x ∈ codec.sizeofTargets dhcp.DHCPLease.structFields,
      ∃ f ∈ dhcp.DHCPLease.structFields, f.name = x ∧ f.type.isSlice = true) ∧
    (∀ f ∈ dhcp.DHCPLease.structFields, f.type = .byteSlice → ∃ n, f.tag = .array n) :=
  counted_fields_wellFormed dhcp.DHCPLease.structFields (by decide)

/-- C6. CRC determinism: among the 35 messages of the dhcp and memif modules, two
messages with identical ordered field sequences (same names, types and tags) have
the same `GetCrcString`; every message whose only field is `Retval int32` returns
"e8d4e804" and every message without fields returns "51077d14". -/
theorem crc_determinism :
    (dhcp.AllMessages ++ memif.AllMessages).length = 35 ∧
    (∀ m1 ∈ dhcp.AllMessages ++ memif.AllMessages, ∀ m2 ∈ dhcp.AllMessages ++ memif.AllMessages,
      m1.fields = m2.fields → m1.GetCrcString = m2.GetCrcString) ∧
    (∀ m ∈ dhcp.AllMessages ++ memif.AllMessages,
      m.fields = [⟨"Retval", .int32, .untagged⟩] → m.GetCrcString = "e8d4e804") ∧
    (∀ m ∈ dhcp.AllMessages ++ memif.AllMessages, m.fields = [] → m.GetCrcString = "51077d14") := by
  decide

theorem crc_determinism_witness :
    dhcp.DHCPProxySetVssReply.GetCrcString = memif.MemifDeleteReply.GetCrcString :=
  crc_determinism.2.1 dhcp.DHCPProxySetVssReply (by decide) memif.MemifDeleteReply (by decide)
    (by decide)

/-- C7. CRC sensitivity: among the 35 messages of the dhcp and memif modules, two
messages whose ordered field sequences differ (in a field name, a field type, a
tag, or the number of fields) have different `GetCrcString`. -/
theorem crc_sensitivity (m1 : api.Message) (h1 : m1 ∈ dhcp.AllMessages ++ memif.AllMessages)
    (m2 : api.Message) (h2 : m2 ∈ dhcp.AllMessages ++ memif.AllMessages)
    (hne : m1.fields ≠ m2.fields) : m1.GetCrcString ≠ m2.GetCrcString := by
  revert m1 m2
  decide

theorem crc_sensitivity_witness :
    dhcp.DHCP6PdReplyEvent.GetCrcString ≠ dhcp.DHCP6ReplyEvent.GetCrcString :=
  crc_sensitivity dhcp.DHCP6PdReplyEvent (by decide) dhcp.DHCP6ReplyEvent (by decide)
    (by decide)

/-- C8, as stated, fails: in each module two distinct messages returned by
`AllMessages` have the same `GetCrcString`, so the pair (module, crc) does not
identify one message. -/
theorem crc_shared_within_module :
    (dhcp.DHCP6ClientsEnableDisableReply ∈ dhcp.AllMessages ∧
      dhcp.DHCP6DuidLlSetReply ∈ dhcp.AllMessages ∧
      dhcp.DHCP6ClientsEnableDisableReply ≠ dhcp.DHCP6DuidLlSetReply ∧
      dhcp.DHCP6ClientsEnableDisableReply.GetCrcString = "e8d4e804" ∧
      dhcp.DHCP6DuidLlSetReply.GetCrcString = "e8d4e804") ∧
    (memif.MemifDump ∈ memif.AllMessages ∧
      memif.MemifSocketFilenameDump ∈ memif.AllMessages ∧
      memif.MemifDump ≠ memif.MemifSocketFilenameDump ∧
      memif.MemifDump.GetCrcString = "51077d14" ∧
      memif.MemifSocketFilenameDump.GetCrcString = "51077d14") ∧
    ¬ (∀ m1 ∈ dhcp.AllMessages, ∀ m2 ∈ dhcp.AllMessages,
        m1 ≠ m2 → m1.GetCrcString ≠ m2.GetCrcString) ∧
    ¬ (∀ m1 ∈ memif.AllMessages, ∀ m2 ∈ memif.AllMessages,
        m1 ≠ m2 → m1.GetCrcString ≠ m2.GetCrcString) := by
  decide

/-- C8, amended.  Within each module (dhcp, memif) the CRC identifies the field
layout and the name together with the CRC identifies the message: two messages
returned by the module's `AllMessages` with the same `GetCrcString` have identical
field sequences, and two with the same `GetMessageName` and the same
`GetCrcString` are the same message. -/
theorem identity_by_name_and_crc (msgs : List api.Message)
    (hmod : msgs = dhcp.AllMessages ∨ msgs = memif.AllMessages)
    (m1 : api.Message) (h1 : m1 ∈ msgs) (m2 : api.Message) (h2 : m2 ∈ msgs) :
    (m1.GetCrcString = m2.GetCrcString → m1.fields = m2.fields) ∧
    (m1.GetMessageName = m2.GetMessageName → m1.GetCrcString = m2.GetCrcString →
      m1 = m2) := by
  rcases hmod with h | h
  · subst h
    exact (by decide : ∀ m1 ∈ dhcp.AllMessages, ∀ m2 ∈ dhcp.AllMessages,
      (m1.GetCrcString = m2.GetCrcString → m1.fields = m2.fields) ∧
      (m1.GetMessageName = m2.GetMessageName → m1.GetCrcString = m2.GetCrcString →
        m1 = m2)) m1 h1 m2 h2
  · subst h
    exact (by decide : ∀ m1 ∈ memif.AllMessages, ∀ m2 ∈ memif.AllMessages,
      (m1.GetCrcString = m2.GetCrcString → m1.fields = m2.fields) ∧
      (m1.GetMessageName = m2.GetMessageName → m1.GetCrcString = m2.GetCrcString →
        m1 = m2)) m1 h1 m2 h2

theorem identity_by_name_and_crc_witness :
    (dhcp.DHCP6ClientsEnableDisableReply.GetCrcString = dhcp.DHCP6DuidLlSetReply.GetCrcString →
      dhcp.DHCP6ClientsEnableDisableReply.fields = dhcp.DHCP6DuidLlSetReply.fields) ∧
    (dhcp.DHCP6ClientsEnableDisableReply.GetMessageName =
        dhcp.DHCP6DuidLlSetReply.GetMessageName →
      dhcp.DHCP6ClientsEnableDisableReply.GetCrcString =
        dhcp.DHCP6DuidLlSetReply.GetCrcString →
      dhcp.DHCP6ClientsEnableDisableReply = dhcp.DHCP6DuidLlSetReply) :=
  identity_by_name_and_crc dhcp.AllMessages (Or.inl rfl)
    dhcp.DHCP6ClientsEnableDisableReply (by decide) dhcp.DHCP6DuidLlSetReply (by decide)

/-- C9, as stated, fails: `DHCPClientDetails` and `MemifDetails` are returned by
`AllMessages`, their `GetMessageType` is `ReplyMessage`, and neither struct has a
field named `Retval` nor any `int32` field. -/
theorem details_reply_without_retval :
    (dhcp.DHCPClientDetails ∈ dhcp.AllMessages ∧
      dhcp.DHCPClientDetails.GetMessageType = .ReplyMessage ∧
      (∀ f ∈ dhcp.DHCPClientDetails.fields, f.name ≠ "Retval" ∧ f.type ≠ .int32)) ∧
    (memif.MemifDetails ∈ memif.AllMessages ∧
      memif.MemifDetails.GetMessageType = .ReplyMessage ∧
      (∀ f ∈ memif.MemifDetails.fields, f.name ≠ "Retval" ∧ f.type ≠ .int32)) := by
  decide

/-- C9, amended.  Every message of the dhcp and memif modules whose
`GetMessageType` is `ReplyMessage` and whose name ends in "_reply" contains the
signed 32-bit field `Retval`, as its first field; every other `ReplyMessage`
message has a name ending in "_details" and no field named `Retval`. -/
theorem reply_retval (m : api.Message) (hm : m ∈ dhcp.AllMessages ++ memif.AllMessages)
    (hk : m.GetMessageType = .ReplyMessage) :
    ("_reply".data <:+ m.GetMessageName.data →
      (⟨"Retval", .int32, .untagged⟩ : StructField) ∈ m.fields ∧
      m.fields.head? = some ⟨"Retval", .int32, .untagged⟩) ∧
    (¬ "_reply".data <:+ m.GetMessageName.data →
      "_details".data <:+ m.GetMessageName.data ∧ ∀ f ∈ m.fields, f.name ≠ "Retval") := by
  revert m
  decide

theorem reply_retval_witness :
    ("_reply".data <:+ memif.MemifCreateReply.GetMessageName.data →
      (⟨"Retval", .int32, .untagged⟩ : StructField) ∈ memif.MemifCreateReply.fields ∧
      memif.MemifCreateReply.fields.head? = some ⟨"Retval", .int32, .untagged⟩) ∧
    (¬ "_reply".data <:+ memif.MemifCreateReply.GetMessageName.data →
      "_details".data <:+ memif.MemifCreateReply.GetMessageName.data ∧
      ∀ f ∈ memif.MemifCreateReply.fields, f.name ≠ "Retval") :=
  reply_retval memif.MemifCreateReply (by decide) (by decide)

/-- C10. Startup registration raises no `SchemaConflict`: running `init` of dhcp
and then of memif (or in the other order) on the empty registry succeeds and
leaves 35 entries, one per call (25 of dhcp, 10 of memif), under the registration
names in call order; the same holds when each message is registered under its
wire name; no name is registered twice; the 35 wire names returned by
`GetMessageName` are pairwise distinct and the 35 registration names passed to
`RegisterMessage` are pairwise distinct. -/
theorem startup_registration_no_conflict :
    (∃ r, (dhcp.init []).bind memif.init = .ok r ∧
      r = (dhcp.initCalls ++ memif.initCalls).map (fun c => (c.2, c.1))) ∧
    (∃ r, (memif.init []).bind dhcp.init = .ok r ∧
      r = (memif.initCalls ++ dhcp.initCalls).map (fun c => (c.2, c.1))) ∧
    (∃ r, (dhcp.initCalls ++ memif.initCalls).foldlM
        (fun r c => api.register r c.1.GetMessageName c.1) [] = .ok r ∧ r.length = 35) ∧
    dhcp.initCalls.length = 25 ∧ memif.initCalls.length = 10 ∧
    ((dhcp.initCalls ++ memif.initCalls).map (fun c => c.1.GetMessageName)).Nodup ∧
    ((dhcp.initCalls ++ memif.initCalls).map (fun c => c.2)).Nodup :=
  ⟨⟨_, rfl, rfl⟩, ⟨_, rfl, rfl⟩, ⟨_, rfl, rfl⟩, by decide, by decide, by decide, by decide⟩

/-! ## Theorems: requests, events, counts and kinds (claims C11, C12, C14, C17, C18) -/

/-- C11. Every request has an expected reply schema in its own module: for every
message of a module (dhcp, memif) whose kind is `RequestMessage` and whose name is
`n`, the same module contains a `ReplyMessage` message named `n ++ "_reply"`, or
`n` ends in "_dump" and the module contains a `ReplyMessage` message named `n` with
the suffix "_dump" replaced by "_details". -/
theorem request_has_reply (msgs : List api.Message)
    (hmod : msgs = dhcp.AllMessages ∨ msgs = memif.AllMessages)
    (m : api.Message) (hm : m ∈ msgs) (hk : m.GetMessageType = .RequestMessage) :
    (∃ r ∈ msgs, r.GetMessageType = .ReplyMessage ∧
      r.GetMessageName = m.GetMessageName ++ "_reply") ∨
    ("_dump".data <:+ m.GetMessageName.data ∧
      ∃ r ∈ msgs, r.GetMessageType = .ReplyMessage ∧
        r.GetMessageName.data =
          m.GetMessageName.data.take (m.GetMessageName.data.length - "_dump".data.length) ++
            "_details".data) := by
  rcases hmod with h | h
  · subst h
    exact (by decide : ∀ m ∈ dhcp.AllMessages, m.GetMessageType = .RequestMessage →
      (∃ r ∈ dhcp.AllMessages, r.GetMessageType = .ReplyMessage ∧
        r.GetMessageName = m.GetMessageName ++ "_reply") ∨
      ("_dump".data <:+ m.GetMessageName.data ∧
        ∃ r ∈ dhcp.AllMessages, r.GetMessageType = .ReplyMessage ∧
          r.GetMessageName.data =
            m.GetMessageName.data.take
              (m.GetMessageName.data.length - "_dump".data.length) ++
              "_details".data)) m hm hk
  · subst h
    exact (by decide : ∀ m ∈ memif.AllMessages, m.GetMessageType = .RequestMessage →
      (∃ r ∈ memif.AllMessages, r.GetMessageType = .ReplyMessage ∧
        r.GetMessageName = m.GetMessageName ++ "_reply") ∨
      ("_dump".data <:+ m.GetMessageName.data ∧
        ∃ r ∈ memif.AllMessages, r.GetMessageType = .ReplyMessage ∧
          r.GetMessageName.data =
            m.GetMessageName.data.take
              (m.GetMessageName.data.length - "_dump".data.length) ++
              "_details".data)) m hm hk

/-- C12. Subscriber id is carried by toggles and events: every request of the dhcp
module whose name starts with "want_" has the field `PID uint32` together with the
field `EnableDisable uint8`, and every message whose kind is `EventMessage` has
`PID uint32` as its first field. -/
theorem subscriber_id :
    (∀ m ∈ dhcp.AllMessages, m.GetMessageType = .RequestMessage →
      "want_".data <+: m.GetMessageName.data →
      (⟨"PID", .uint32, .untagged⟩ : StructField) ∈ m.fields ∧
      (⟨"EnableDisable", .uint8, .untagged⟩ : StructField) ∈ m.fields) ∧
    (∀ m ∈ dhcp.AllMessages ++ memif.AllMessages, m.GetMessageType = .EventMessage →
      m.fields.head? = some ⟨"PID", .uint32, .untagged⟩) := by
  decide

/-- C14. Module message counts match the package documentation: `AllMessages` of
the dhcp module returns exactly 25 messages and `AllMessages` of the memif module
exactly 10, the numbers the package documentation gives, and neither list has a
repeated entry. -/
theorem message_counts :
    dhcp.AllMessages.length = 25 ∧ dhcp.AllMessages.length = dhcp.docMessages ∧
    dhcp.AllMessages.Nodup ∧
    memif.AllMessages.length = 10 ∧ memif.AllMessages.length = memif.docMessages ∧
    memif.AllMessages.Nodup := by
  decide

/-- C17. Registration and enumeration agree: in each module the sequence of message
types passed to `api.RegisterMessage` by `init` is the sequence returned by
`AllMessages`, in the same order, and each registration name is the module name, a
dot, and the Go type name of the registered message. -/
theorem registration_matches_enumeration :
    dhcp.initCalls.map Prod.fst = dhcp.AllMessages ∧
    memif.initCalls.map Prod.fst = memif.AllMessages ∧
    (∀ c ∈ dhcp.initCalls, c.2 = dhcp.ModuleName ++ "." ++ c.1.typeName) ∧
    (∀ c ∈ memif.initCalls, c.2 = memif.ModuleName ++ "." ++ c.1.typeName) := by
  decide

/-- C18. The kind of a message follows from its name: for every message of the dhcp
and memif modules, `GetMessageType` is `ReplyMessage` exactly when the name ends in
"_reply" or "_details", `EventMessage` exactly when the name ends in "_event", and
`RequestMessage` exactly when it ends in none of them; every message has one of
the three kinds. -/
theorem kind_from_name (m : api.Message) (hm : m ∈ dhcp.AllMessages ++ memif.AllMessages) :
    (m.GetMessageType = .ReplyMessage ↔
      ("_reply".data <:+ m.GetMessageName.data ∨ "_details".data <:+ m.GetMessageName.data)) ∧
    (m.GetMessageType = .EventMessage ↔ "_event".data <:+ m.GetMessageName.data) ∧
    (m.GetMessageType = .RequestMessage ↔
      ¬ ("_reply".data <:+ m.GetMessageName.data ∨ "_details".data <:+ m.GetMessageName.data ∨
        "_event".data <:+ m.GetMessageName.data)) ∧
    (m.GetMessageType = .RequestMessage ∨ m.GetMessageType = .ReplyMessage ∨
      m.GetMessageType = .EventMessage) := by
  revert m
  decide

theorem request_has_reply_witness :
    (∃ r ∈ dhcp.AllMessages, r.GetMessageType = .ReplyMessage ∧
      r.GetMessageName = dhcp.DHCPClientDump.GetMessageName ++ "_reply") ∨
    ("_dump".data <:+ dhcp.DHCPClientDump.GetMessageName.data ∧
      ∃ r ∈ dhcp.AllMessages, r.GetMessageType = .ReplyMessage ∧
        r.GetMessageName.data =
          dhcp.DHCPClientDump.GetMessageName.data.take
            (dhcp.DHCPClientDump.GetMessageName.data.length - "_dump".data.length) ++
            "_details".data) :=
  request_has_reply dhcp.AllMessages (Or.inl rfl) dhcp.DHCPClientDump (by decide) (by decide)

theorem subscriber_id_witness :
    (⟨"PID", .uint32, .untagged⟩ : StructField) ∈ dhcp.WantDHCP6ReplyEvents.fields ∧
    (⟨"EnableDisable", .uint8, .untagged⟩ : StructField) ∈ dhcp.WantDHCP6ReplyEvents.fields :=
  subscriber_id.1 dhcp.WantDHCP6ReplyEvents (by decide) (by decide) (by decide)

theorem kind_from_name_witness :
    (dhcp.DHCPComplEvent.GetMessageType = .ReplyMessage ↔
      ("_reply".data <:+ dhcp.DHCPComplEvent.GetMessageName.data ∨
        "_details".data <:+ dhcp.DHCPComplEvent.GetMessageName.data)) ∧
    (dhcp.DHCPComplEvent.GetMessageType = .EventMessage ↔
      "_event".data <:+ dhcp.DHCPComplEvent.GetMessageName.data) ∧
    (dhcp.DHCPComplEvent.GetMessageType = .RequestMessage ↔
      ¬ ("_reply".data <:+ dhcp.DHCPComplEvent.GetMessageName.data ∨
        "_details".data <:+ dhcp.DHCPComplEvent.GetMessageName.data ∨
        "_event".data <:+ dhcp.DHCPComplEvent.GetMessageName.data)) ∧
    (dhcp.DHCPComplEvent.GetMessageType = .RequestMessage ∨
      dhcp.DHCPComplEvent.GetMessageType = .ReplyMessage ∨
      dhcp.DHCPComplEvent.GetMessageType = .EventMessage) :=
  kind_from_name dhcp.DHCPComplEvent (by decide)

theorem registration_matches_enumeration_witness :
    (dhcp.DHCPClientDump, "dhcp.DHCPClientDump").2 =
      dhcp.ModuleName ++ "." ++ (dhcp.DHCPClientDump, "dhcp.DHCPClientDump").1.typeName :=
  registration_matches_enumeration.2.2.1 (dhcp.DHCPClientDump, "dhcp.DHCPClientDump")
    (by decide)

/-! ## Theorems: count overflow (claim C13) -/

namespace codec

theorem encodeAll_error_kind (f : Value → Except CodecError (List Byte)) :
    ∀ (es : List Value), (∀ v ∈ es, ∀ err, f v = .error err → err = .ValueOutOfRange) →
      ∀ err, encodeAll f es = .error err → err = .ValueOutOfRange
  | [], _, err, h => by simp [encodeAll] at h
  | v :: vs, hf, err, h => by
    simp only [encodeAll] at h
    split at h
    · rename_i err2 h2
      cases h
      exact hf v (List.mem_cons_self _ _) _ h2
    · split at h
      · rename_i err2 h3
        cases h
        exact encodeAll_error_kind f vs (fun w hw => hf w (List.mem_cons_of_mem _ hw)) _ h3
      · cases h

mutual
theorem encodeValue_error (e : Endian) : ∀ (t : GoType) (tag : StrucTag) (v : Value)
    (err : CodecError), encodeValue e t tag v = .error err → err = .ValueOutOfRange
  | .scalar k, tag, v, err, h => by
    cases v with
    | int n =>
      simp only [encodeValue, encodeScalar] at h
      split at h
      · cases h
      · cases h; rfl
    | bytes _ => simp only [encodeValue] at h; cases h; rfl
    | struct _ => simp only [encodeValue] at h; cases h; rfl
    | list _ => simp only [encodeValue] at h; cases h; rfl
  | .byteSlice, tag, v, err, h => by
    cases v with
    | bytes s => cases tag <;> simp [encodeValue] at h
    | int _ => simp only [encodeValue] at h; cases h; rfl
    | struct _ => simp only [encodeValue] at h; cases h; rfl
    | list _ => simp only [encodeValue] at h; cases h; rfl
  | .struct name fs, tag, v, err, h => by
    cases v with
    | struct vs =>
      simp only [encodeValue] at h
      exact encodeFields_error e _ fs vs err h
    | int _ => simp only [encodeValue] at h; cases h; rfl
    | bytes _ => simp only [encodeValue] at h; cases h; rfl
    | list _ => simp only [encodeValue] at h; cases h; rfl
  | .slice t, tag, v, err, h => by
    cases v with
    | list es =>
      simp only [encodeValue] at h
      exact encodeAll_error_kind _ es
        (fun v _ err hv => encodeValue_error e t .untagged v err hv) err h
    | int _ => simp only [encodeValue] at h; cases h; rfl
    | bytes _ => simp only [encodeValue] at h; cases h; rfl
    | struct _ => simp only [encodeValue] at h; cases h; rfl
theorem encodeFields_error (e : Endian) (lens : String → Option Nat) :
    ∀ (fs : List StructField) (vs : List Value) (err : CodecError),
    encodeFields e lens fs vs = .error err → err = .ValueOutOfRange
  | [], vs, err, h => by
    cases vs with
    | nil => simp [encodeFields] at h
    | cons _ _ => simp only [encodeFields] at h; cases h; rfl
  | .mk name t tag :: fs, vs, err, h => by
    cases vs with
    | nil => simp only [encodeFields] at h; cases h; rfl
    | cons v vs =>
      simp only [encodeFields] at h
      split at h
      · cases h; rfl
      · rename_i w hw
        split at h
        · rename_i err2 h2
          cases h
          exact encodeValue_error e t tag w _ h2
        · split at h
          · rename_i err2 h3
            cases h
            exact encodeFields_error e lens fs vs _ h3
          · cases h
end

end codec

namespace codec

end codec

/-! ## Theorems: the control context (claim C15) -/

namespace data

/-- C15. `GetCommands` returns the provided command set: for every list `cmdSet`
and whatever the collaborators do, a control context returned by
`initVppAgentCtl cmdSet`, and so one returned by `NewVppAgentCtl dbCfg cmdSet etcd`
for every `dbCfg` and `etcd` flag, has `GetCommands` equal to `cmdSet`, whether or
not the key-value client creation returned an error.  When the service label
initialises without error both functions do return a context, and
`NewVppAgentCtl` hands on the error of the client creation. -/
theorem getCommands_returns_cmdSet {Conn Broker Err : Type} (ext : External Conn Broker Err)
    (cmdSet : List String) :
    (∀ ctl, initVppAgentCtl ext cmdSet = .ok ctl → ctl.GetCommands = cmdSet) ∧
    (∀ dbCfg etcd ctl err, NewVppAgentCtl ext dbCfg cmdSet etcd = .ok (ctl, err) →
      ctl.GetCommands = cmdSet) ∧
    (ext.serviceLabelInit = none →
      (∃ ctl, initVppAgentCtl ext cmdSet = .ok ctl ∧ ctl.GetCommands = cmdSet) ∧
      ∀ dbCfg etcd, ∃ ctl, NewVppAgentCtl ext dbCfg cmdSet etcd =
          .ok (ctl, (if etcd then ext.CreateEtcdClient dbCfg ext.GetAgentPrefix
            else ext.CreateRedisClient dbCfg ext.GetAgentPrefix).2.2) ∧
        ctl.GetCommands = cmdSet) := by
  refine ⟨?_, ?_, ?_⟩
  · intro ctl h
    unfold initVppAgentCtl at h
    cases hi : ext.serviceLabelInit with
    | some x => simp [hi] at h
    | none =>
      simp only [hi, Except.ok.injEq] at h
      rw [← h]
      rfl
  · intro dbCfg etcd ctl err h
    unfold NewVppAgentCtl initVppAgentCtl at h
    cases hi : ext.serviceLabelInit with
    | some x => simp [hi] at h
    | none =>
      simp only [hi, Except.ok.injEq, Prod.mk.injEq] at h
      rw [← h.1]
      rfl
  · intro hi
    refine ⟨⟨⟨cmdSet, none, none⟩, by simp only [initVppAgentCtl, hi], rfl⟩,
      fun dbCfg etcd => ?_⟩
    exact ⟨⟨cmdSet,
      (if etcd then ext.CreateEtcdClient dbCfg ext.GetAgentPrefix
        else ext.CreateRedisClient dbCfg ext.GetAgentPrefix).1,
      (if etcd then ext.CreateEtcdClient dbCfg ext.GetAgentPrefix
        else ext.CreateRedisClient dbCfg ext.GetAgentPrefix).2.1⟩,
      by simp only [NewVppAgentCtl, initVppAgentCtl, hi], rfl⟩

theorem getCommands_returns_cmdSet_witness :
    ∃ ctl : VppAgentCtlImpl Nat Nat,
      NewVppAgentCtl
        (⟨none, "/vnf-agent/vpp1/", fun _ _ => (none, none, some "etcd unreachable"),
          fun _ _ => (some 1, some 2, none)⟩ : External Nat Nat String)
        "etcd.conf" ["-acl", "-tap"] true = .ok (ctl, some "etcd unreachable") ∧
      ctl.GetCommands = ["-acl", "-tap"] :=
  ((getCommands_returns_cmdSet
    (⟨none, "/vnf-agent/vpp1/", fun _ _ => (none, none, some "etcd unreachable"),
      fun _ _ => (some 1, some 2, none)⟩ : External Nat Nat String)
    ["-acl", "-tap"]).2.2 rfl).2 "etcd.conf" true

end data

/-! ## Theorems: wire length (claim C16) -/

namespace codec

theorem encodeScalar_length (e : Endian) (k : ScalarKind) (n : Int) (b : List Byte)
    (h : encodeScalar e k n = .ok b) : b.length = k.width := by
  unfold encodeScalar at h
  split at h
  · simp only [Except.ok.injEq] at h
    rw [← h, toWire_length]
  · cases h

theorem fixedBytes_length (n : Nat) (s : List Byte) : (fixedBytes n s).length = n := by
  simp only [fixedBytes, List.length_append, List.length_take, List.length_replicate]
  omega

theorem encodeAll_length (f : Value → Except CodecError (List Byte)) (sz : Value → Nat) :
    ∀ (es : List Value), (∀ v ∈ es, ∀ b, f v = .ok b → b.length = sz v) →
      ∀ bs, encodeAll f es = .ok bs → bs.length = (es.map sz).sum
  | [], _, bs, h => by
    simp only [encodeAll, Except.ok.injEq] at h
    rw [← h]; rfl
  | v :: vs, hf, bs, h => by
    simp only [encodeAll] at h
    split at h
    · cases h
    · rename_i b hb
      split at h
      · cases h
      · rename_i bs2 hbs2
        simp only [Except.ok.injEq] at h
        rw [← h, List.length_append, hf v (List.mem_cons_self _ _) b hb,
          encodeAll_length f sz vs (fun w hw => hf w (List.mem_cons_of_mem _ hw)) bs2 hbs2]
        simp

mutual
theorem encodeValue_length (e : Endian) : ∀ (t : GoType) (tag : StrucTag) (v : Value)
    (b : List Byte), encodeValue e t tag v = .ok b → b.length = wireSize t tag v
  | .scalar k, tag, v, b, h => by
    cases v with
    | int n =>
      simp only [encodeValue] at h
      simp only [wireSize, encodeScalar_length e k n b h]
    | bytes _ => simp [encodeValue] at h
    | struct _ => simp [encodeValue] at h
    | list _ => simp [encodeValue] at h
  | .byteSlice, tag, v, b, h => by
    cases v with
    | bytes s =>
      cases tag with
      | array n =>
        simp only [encodeValue, Except.ok.injEq] at h
        rw [← h, fixedBytes_length]
        simp only [wireSize]
      | untagged =>
        simp only [encodeValue, Except.ok.injEq] at h
        rw [← h]
        simp only [wireSize]
      | sizeof x =>
        simp only [encodeValue, Except.ok.injEq] at h
        rw [← h]
        simp only [wireSize]
    | int _ => simp [encodeValue] at h
    | struct _ => simp [encodeValue] at h
    | list _ => simp [encodeValue] at h
  | .struct name fs, tag, v, b, h => by
    cases v with
    | struct vs =>
      simp only [encodeValue] at h
      simp only [wireSize]
      exact encodeFields_length e _ fs vs b h
    | int _ => simp [encodeValue] at h
    | bytes _ => simp [encodeValue] at h
    | list _ => simp [encodeValue] at h
  | .slice t, tag, v, b, h => by
    cases v with
    | list es =>
      simp only [encodeValue] at h
      simp only [wireSize]
      exact encodeAll_length _ _ es
        (fun v _ b hb => encodeValue_length e t .untagged v b hb) b h
    | int _ => simp [encodeValue] at h
    | bytes _ => simp [encodeValue] at h
    | struct _ => simp [encodeValue] at h
theorem encodeFields_length (e : Endian) (lens : String → Option Nat) :
    ∀ (fs : List StructField) (vs : List Value) (b : List Byte),
    encodeFields e lens fs vs = .ok b → b.length = wireSizeFields fs vs
  | [], vs, b, h => by
    cases vs with
    | nil =>
      simp only [encodeFields, Except.ok.injEq] at h
      rw [← h]; rfl
    | cons _ _ => simp [encodeFields] at h
  | .mk name t tag :: fs, vs, b, h => by
    cases vs with
    | nil => simp [encodeFields] at h
    | cons v vs =>
      simp only [encodeFields] at h
      split at h
      · cases h
      · rename_i w hw
        split at h
        · cases h
        · rename_i b1 hb1
          split at h
          · cases h
          · rename_i b2 hb2
            simp only [Except.ok.injEq] at h
            have h1 := encodeValue_length e t tag w b1 hb1
            have h2 := encodeFields_length e lens fs vs b2 hb2
            have hsz : wireSize t tag w = wireSize t tag v := by
              cases tag with
              | untagged => simp only [wireValue, Option.some.injEq] at hw; rw [hw]
              | array n => simp only [wireValue, Option.some.injEq] at hw; rw [hw]
              | sizeof x =>
                simp only [wireValue] at hw
                split at hw
                · simp only [Option.some.injEq] at hw
                  subst hw
                  cases t with
                  | scalar k => simp only [wireSize]
                  | byteSlice => simp [encodeValue] at hb1
                  | struct _ _ => simp [encodeValue] at hb1
                  | slice _ => simp [encodeValue] at hb1
                · cases hw
            rw [← h, List.length_append, h1, h2, hsz]
            simp only [wireSizeFields]
end

end codec

namespace codec

theorem encodeValue_fieldWidth (e : Endian) (t : GoType) (tag : StrucTag) (w : Nat)
    (hw : fieldWidth t tag = some w) (lens : String → Option Nat) (v : Value)
    (hT : hasType t v = true) :
    wireValue tag lens v = some v ∧ ∃ b, encodeValue e t tag v = .ok b ∧ b.length = w := by
  cases t with
  | struct _ _ => simp [fieldWidth] at hw
  | slice _ => simp [fieldWidth] at hw
  | scalar k =>
    cases v with
    | int n =>
      simp only [hasType, decide_eq_true_eq] at hT
      cases tag with
      | sizeof x => simp [fieldWidth] at hw
      | untagged =>
        simp only [fieldWidth, Option.some.injEq] at hw
        refine ⟨rfl, toWire e k.width (n % (256 : Int) ^ k.width).toNat,
          by simp only [encodeValue, encodeScalar, if_pos hT], ?_⟩
        rw [toWire_length, hw]
      | array m =>
        simp only [fieldWidth, Option.some.injEq] at hw
        refine ⟨rfl, toWire e k.width (n % (256 : Int) ^ k.width).toNat,
          by simp only [encodeValue, encodeScalar, if_pos hT], ?_⟩
        rw [toWire_length, hw]
    | bytes _ => simp [hasType] at hT
    | struct _ => simp [hasType] at hT
    | list _ => simp [hasType] at hT
  | byteSlice =>
    cases v with
    | bytes s =>
      cases tag with
      | untagged => simp [fieldWidth] at hw
      | sizeof _ => simp [fieldWidth] at hw
      | array n =>
        simp only [fieldWidth, Option.some.injEq] at hw
        subst hw
        exact ⟨rfl, fixedBytes n s, by simp only [encodeValue], fixedBytes_length n s⟩
    | int _ => simp [hasType] at hT
    | struct _ => simp [hasType] at hT
    | list _ => simp [hasType] at hT

theorem encodeFields_static (e : Endian) (lens : String → Option Nat) :
    ∀ (fs : List StructField) (w : Nat), staticWidth fs = some w →
    ∀ (tl : List StructField) (vs1 vs2 : List Value), hasTypeFields fs vs1 = true →
    ∃ b, b.length = w ∧ encodeFields e lens (fs ++ tl) (vs1 ++ vs2) =
      match encodeFields e lens tl vs2 with
      | .error err => .error err
      | .ok b2 => .ok (b ++ b2)
  | [], w, hw, tl, vs1, vs2, hT => by
    simp only [staticWidth, Option.some.injEq] at hw
    subst hw
    cases vs1 with
    | cons _ _ => simp [hasTypeFields] at hT
    | nil =>
      refine ⟨[], rfl, ?_⟩
      simp only [List.nil_append]
      cases encodeFields e lens tl vs2 with
      | error err => rfl
      | ok r => rfl
  | .mk name t tag :: fs, w, hw, tl, vs1, vs2, hT => by
    simp only [staticWidth] at hw
    cases h1 : fieldWidth t tag with
    | none => simp [h1] at hw
    | some w1 =>
      cases h2 : staticWidth fs with
      | none => simp [h1, h2] at hw
      | some w2 =>
        simp only [h1, h2, Option.some.injEq] at hw
        subst hw
        cases vs1 with
        | nil => simp [hasTypeFields] at hT
        | cons v vs1 =>
          simp only [hasTypeFields, Bool.and_eq_true] at hT
          obtain ⟨hwv, b1, hb1, hl1⟩ := encodeValue_fieldWidth e t tag w1 h1 lens v hT.1
          obtain ⟨b2, hl2, hb2⟩ := encodeFields_static e lens fs w2 h2 tl vs1 vs2 hT.2
          refine ⟨b1 ++ b2, by rw [List.length_append, hl1, hl2], ?_⟩
          simp only [List.cons_append, encodeFields, List.append_eq, hwv, hb1, hb2]
          cases encodeFields e lens tl vs2 with
          | error err => rfl
          | ok r => simp only [List.append_assoc]

theorem encodeValue_static (e : Endian) (name : String) (fs : List StructField) (w : Nat)
    (hw : staticWidth fs = some w) (tag : StrucTag) (v : Value)
    (hT : hasType (.struct name fs) v = true) :
    ∃ b, encodeValue e (.struct name fs) tag v = .ok b ∧ b.length = w := by
  cases v with
  | struct vs =>
    simp only [hasType] at hT
    obtain ⟨b, hl, hb⟩ := encodeFields_static e (fun x => arrayLen x fs vs) fs w hw [] vs []
      hT
    rw [List.append_nil, List.append_nil] at hb
    refine ⟨b, ?_, hl⟩
    simp only [encodeValue, hb, encodeFields, List.append_nil]
  | int _ => simp [hasType] at hT
  | bytes _ => simp [hasType] at hT
  | list _ => simp [hasType] at hT

theorem encodeAll_static (f : Value → Except CodecError (List Byte)) (w : Nat) :
    ∀ (es : List Value), (∀ v ∈ es, ∃ b, f v = .ok b ∧ b.length = w) →
      ∃ bs, encodeAll f es = .ok bs ∧ bs.length = es.length * w
  | [], _ => ⟨[], rfl, by simp⟩
  | v :: vs, hf => by
    obtain ⟨b, hb, hl⟩ := hf v (List.mem_cons_self _ _)
    obtain ⟨bs, hbs, hls⟩ := encodeAll_static f w vs (fun x hx => hf x (List.mem_cons_of_mem _ hx))
    refine ⟨b ++ bs, by simp only [encodeAll, hb, hbs], ?_⟩
    rw [List.length_append, hl, hls, List.length_cons]
    ring

theorem encode_static (e : Endian) (m : api.Message) (w : Nat)
    (hw : staticWidth m.fields = some w) (v : Value) (hT : hasType m.goType v = true) :
    ∃ bs, encode e m v = .ok bs ∧ bs.length = w :=
  encodeValue_static e m.typeName m.fields w hw .untagged v hT

theorem hasTypeFields_append : ∀ (fs : List StructField) (vs1 : List Value)
    (tl : List StructField) (vs2 : List Value), fs.length = vs1.length →
    hasTypeFields (fs ++ tl) (vs1 ++ vs2) = (hasTypeFields fs vs1 && hasTypeFields tl vs2)
  | [], [], tl, vs2, _ => by simp [hasTypeFields]
  | [], _ :: _, _, _, h => by simp at h
  | _ :: _, [], _, _, h => by simp at h
  | .mk name t tag :: fs, v :: vs1, tl, vs2, h => by
    have ih := hasTypeFields_append fs vs1 tl vs2 (by simpa using h)
    simp only [List.cons_append, hasTypeFields, List.append_eq, ih, Bool.and_assoc]

theorem encodeScalar_ok (e : Endian) (k : ScalarKind) (n : Int)
    (h : k.minValue ≤ n ∧ n ≤ k.maxValue) :
    encodeScalar e k n = .ok (toWire e k.width (n % (256 : Int) ^ k.width).toNat) := by
  simp only [encodeScalar, if_pos h]

theorem encodeValue_scalar_eq (e : Endian) (k : ScalarKind) (tag : StrucTag) (n : Int) :
    encodeValue e (.scalar k) tag (.int n) = encodeScalar e k n := by
  simp only [encodeValue]

theorem encodeValue_slice_eq (e : Endian) (t : GoType) (tag : StrucTag) (es : List Value) :
    encodeValue e (.slice t) tag (.list es) = encodeAll (encodeValue e t .untagged) es := by
  simp only [encodeValue]

theorem encodeFields_cons_eq (e : Endian) (lens : String → Option Nat) (name : String)
    (t : GoType) (tag : StrucTag) (fs : List StructField) (v : Value) (vs : List Value) :
    encodeFields e lens (.mk name t tag :: fs) (v :: vs) =
      match wireValue tag lens v with
      | none => .error .ValueOutOfRange
      | some w =>
        match encodeValue e t tag w with
        | .error err => .error err
        | .ok b =>
          match encodeFields e lens fs vs with
          | .error err => .error err
          | .ok bs => .ok (b ++ bs) := by
  simp only [encodeFields]

theorem encodeFields_nil_eq (e : Endian) (lens : String → Option Nat) :
    encodeFields e lens [] [] = .ok [] := by
  simp only [encodeFields]

theorem encode_DHCPProxyDetails_length (e : Endian) (a b c d s1 i s2 cnt : Value)
    (es : List Value)
    (hT : hasType dhcp.DHCPProxyDetails.goType
      (.struct [a, b, c, d, s1, i, s2, cnt, .list es]) = true)
    (hk : es.length ≤ 255) :
    ∃ bs, encode e dhcp.DHCPProxyDetails (.struct [a, b, c, d, s1, i, s2, cnt, .list es]) =
      .ok bs ∧ bs.length = 160 + 20 * es.length := by
  have hst : staticWidth (dhcp.DHCPProxyDetails.fields.take 7) = some 159 := rfl
  have hT2 : hasTypeFields
      (dhcp.DHCPProxyDetails.fields.take 7 ++
        [.mk "Count" .uint8 (.sizeof "Servers"),
          .mk "Servers" (.slice dhcp.DHCPServer) .untagged])
      ([a, b, c, d, s1, i, s2] ++ [cnt, Value.list es]) = true := by
    simp only [api.Message.goType, hasType] at hT
    exact hT
  rw [hasTypeFields_append _ _ _ _ rfl, Bool.and_eq_true] at hT2
  obtain ⟨h7, h2⟩ := hT2
  simp only [hasTypeFields, hasType, Bool.and_eq_true, List.all_eq_true] at h2
  have hes : ∀ v ∈ es, hasType dhcp.DHCPServer v = true := h2.2.1
  have hl : arrayLen "Servers" dhcp.DHCPProxyDetails.fields
      [a, b, c, d, s1, i, s2, cnt, .list es] = some es.length := rfl
  obtain ⟨b1, hl1, hb1⟩ := encodeFields_static e
    (fun x => arrayLen x dhcp.DHCPProxyDetails.fields [a, b, c, d, s1, i, s2, cnt, .list es])
    (dhcp.DHCPProxyDetails.fields.take 7) 159 hst
    [.mk "Count" .uint8 (.sizeof "Servers"), .mk "Servers" (.slice dhcp.DHCPServer) .untagged]
    [a, b, c, d, s1, i, s2] [cnt, Value.list es] h7
  have helem : ∀ v ∈ es, ∃ b, encodeValue e dhcp.DHCPServer .untagged v = .ok b ∧
      b.length = 20 :=
    fun v hv => encodeValue_static e "DHCPServer" dhcp.DHCPServer.structFields 20 rfl
      .untagged v (hes v hv)
  obtain ⟨bsrv, hsrv, hlsrv⟩ := encodeAll_static (encodeValue e dhcp.DHCPServer .untagged) 20 es
    helem
  have hsc := encodeScalar_ok e .U8 (es.length : Int)
    (by simp only [ScalarKind.minValue, ScalarKind.maxValue]; omega)
  have htl : encodeFields e
      (fun x => arrayLen x dhcp.DHCPProxyDetails.fields [a, b, c, d, s1, i, s2, cnt, .list es])
      [.mk "Count" .uint8 (.sizeof "Servers"), .mk "Servers" (.slice dhcp.DHCPServer) .untagged]
      [cnt, Value.list es] =
      .ok (toWire e 1 ((es.length : Int) % (256 : Int) ^ 1).toNat ++ (bsrv ++ [])) := by
    rw [encodeFields_cons_eq]
    simp only [wireValue, hl]
    rw [encodeValue_scalar_eq, hsc, encodeFields_cons_eq]
    simp only [wireValue]
    rw [encodeValue_slice_eq, hsrv, encodeFields_nil_eq]
    rfl
  rw [htl] at hb1
  refine ⟨_, hb1, ?_⟩
  simp only [List.length_append, hl1, toWire_length, hlsrv, List.length_nil]
  omega

end codec

namespace codec

theorem wireSize_static (e : Endian) (name : String) (fs : List StructField) (w : Nat)
    (hw : staticWidth fs = some w) (tag : StrucTag) (v : Value)
    (hT : hasType (.struct name fs) v = true) : wireSize (.struct name fs) tag v = w := by
  obtain ⟨b, hb, hl⟩ := encodeValue_static e name fs w hw tag v hT
  rw [← encodeValue_length e _ tag v b hb, hl]

theorem wireSize_slice_eq (t : GoType) (tag : StrucTag) (es : List Value) :
    wireSize (.slice t) tag (.list es) = (es.map (wireSize t .untagged)).sum := by
  simp only [wireSize]

theorem wireSize_slice_static (nm : String) (ef : List StructField) (w : Nat)
    (hw : staticWidth ef = some w) (tag : StrucTag) :
    ∀ (es : List Value), (∀ v ∈ es, hasType (.struct nm ef) v = true) →
      wireSize (.slice (.struct nm ef)) tag (.list es) = es.length * w
  | [], _ => by rw [wireSize_slice_eq]; simp
  | v :: vs, h => by
    have ih := wireSize_slice_static nm ef w hw tag vs
      (fun x hx => h x (List.mem_cons_of_mem _ hx))
    have hv := wireSize_static .big nm ef w hw .untagged v (h v (List.mem_cons_self _ _))
    rw [wireSize_slice_eq] at ih ⊢
    rw [List.map_cons, List.sum_cons, ih, hv, List.length_cons]
    ring

/-- C16. The schema alone determines the wire length, in either byte order.  For
every message of the two modules, an encoding of a value has the length the
declaration gives: the declared widths of the integer fields and `[n]byte`
arrays plus, for every counted array, the lengths of its elements, which for
elements of declared width `w` is the element count times `w`; every slice of
the two modules has such elements.  The contents of the fields play no part: a
message whose fields all have a declared width encodes every value of its type to
that many bytes, so every `MemifCreate` encodes to 48 bytes and every
`MemifDetails` to 92 bytes, and a `DHCPProxyDetails` with `k` servers, `k <= 255`,
encodes to `160 + 20 * k` bytes. -/
theorem wire_length_from_schema (e : Endian) :
    (∀ m ∈ dhcp.AllMessages ++ memif.AllMessages, ∀ (v : Value) (bs : List Byte),
      encode e m v = .ok bs → bs.length = wireSize m.goType .untagged v) ∧
    (∀ (nm : String) (ef : List StructField) (w : Nat) (tag : StrucTag) (es : List Value),
      staticWidth ef = some w → (∀ v ∈ es, hasType (.struct nm ef) v = true) →
      wireSize (.slice (.struct nm ef)) tag (.list es) = es.length * w) ∧
    (∀ fs ∈ declaredStructs, ∀ f ∈ fs, f.type.isSlice = true →
      (sliceElemWidth f.type).isSome = true) ∧
    (∀ m ∈ dhcp.AllMessages ++ memif.AllMessages, ∀ w, staticWidth m.fields = some w →
      ∀ v : Value, hasType m.goType v = true →
      ∃ bs, encode e m v = .ok bs ∧ bs.length = w) ∧
    (∀ v : Value, hasType memif.MemifCreate.goType v = true →
      ∃ bs, encode e memif.MemifCreate v = .ok bs ∧ bs.length = 48) ∧
    (∀ v : Value, hasType memif.MemifDetails.goType v = true →
      ∃ bs, encode e memif.MemifDetails v = .ok bs ∧ bs.length = 92) ∧
    (∀ (a b c d s1 i s2 cnt : Value) (es : List Value),
      hasType dhcp.DHCPProxyDetails.goType
        (.struct [a, b, c, d, s1, i, s2, cnt, .list es]) = true →
      es.length ≤ 255 →
      ∃ bs, encode e dhcp.DHCPProxyDetails
          (.struct [a, b, c, d, s1, i, s2, cnt, .list es]) = .ok bs ∧
        bs.length = 160 + 20 * es.length) :=
  ⟨fun m _ v bs h => encodeValue_length e m.goType .untagged v bs h,
   fun nm ef w tag es hw hes => wireSize_slice_static nm ef w hw tag es hes,
   by decide,
   fun m _ w hw v hT => encode_static e m w hw v hT,
   fun v hT => encode_static e memif.MemifCreate 48 rfl v hT,
   fun v hT => encode_static e memif.MemifDetails 92 rfl v hT,
   fun a b c d s1 i s2 cnt es hT hk =>
     encode_DHCPProxyDetails_length e a b c d s1 i s2 cnt es hT hk⟩

theorem wire_length_from_schema_witness :
    ∃ bs, encode .big memif.MemifCreate
        (.struct [.int 1, .int 0, .int 2, .int 2, .int 7, .int 0, .bytes [1, 2, 3],
          .int 1024, .int 2048, .bytes [2, 254, 0, 0, 0, 1, 9, 9]]) = .ok bs ∧
      bs.length = 48 :=
  (wire_length_from_schema .big).2.2.2.2.1 _ (by decide)


/-! ### Counted arrays: the count written is the number of elements -/

theorem encodeAll_decodeN_map (f : Value → Except CodecError (List Byte))
    (d : List Byte → Except CodecError (Value × List Byte)) (g : Value → Value)
    (es : List Value)
    (h : ∀ v ∈ es, ∀ b, f v = .ok b → ∀ rest, d (b ++ rest) = .ok (g v, rest)) :
    ∀ bs, encodeAll f es = .ok bs →
      ∀ rest, decodeN d es.length (bs ++ rest) = .ok (es.map g, rest) := by
  induction es with
  | nil =>
    intro bs hbs rest
    simp only [encodeAll, Except.ok.injEq] at hbs
    subst hbs
    rfl
  | cons v vs ih =>
    intro bs hbs rest
    simp only [encodeAll] at hbs
    cases hf : f v with
    | error err => simp [hf] at hbs
    | ok b =>
      cases hr : encodeAll f vs with
      | error err => simp [hf, hr] at hbs
      | ok bs2 =>
        simp only [hf, hr, Except.ok.injEq] at hbs
        subst hbs
        have h1 := h v (List.mem_cons_self _ _) b hf
        have h2 := ih (fun w hw => h w (List.mem_cons_of_mem _ hw)) bs2 hr
        simp [decodeN, List.append_assoc, h1, h2]

theorem wireValue_sizeof (x : String) (lens : String → Option Nat) (v w : Value)
    (h : wireValue (.sizeof x) lens v = some w) : ∃ k : Nat, lens x = some k ∧ w = .int k := by
  simp only [wireValue] at h
  cases hl : lens x with
  | none => simp [hl] at h
  | some k =>
    simp only [hl, Option.some.injEq] at h
    exact ⟨k, rfl, h.symm⟩

mutual
theorem decode_encodeValue (e : Endian) : ∀ (t : GoType) (tag : StrucTag) (counted : Bool)
    (cnt : Option Nat) (v : Value) (b : List Byte),
    wellFormed t tag counted = true → encodeValue e t tag v = .ok b →
    (counted = true → isCountedArray t tag = true → cnt = valueLen v) →
    ∀ rest, decodeValue e t tag cnt (b ++ rest) = .ok (wireForm t tag v, rest)
  | .scalar k, tag, counted, cnt, v, b, hW, hE, hcnt => by
    cases v with
    | int n =>
      simp only [encodeValue, encodeScalar] at hE
      split at hE
      · rename_i hr
        simp only [Except.ok.injEq] at hE
        subst hE
        intro rest
        simp only [decodeValue, decodeScalar_encode e k n rest hr.1 hr.2, wireForm]
      · simp at hE
    | bytes _ => simp [encodeValue] at hE
    | struct _ => simp [encodeValue] at hE
    | list _ => simp [encodeValue] at hE
  | .byteSlice, tag, counted, cnt, v, b, hW, hE, hcnt => by
    cases v with
    | bytes s =>
      cases tag with
      | array n =>
        simp only [encodeValue, Except.ok.injEq] at hE
        subst hE
        intro rest
        have hl := fixedBytes_length n s
        simp [decodeValue, byteLen, wireForm, hl, List.take_left' hl, List.drop_left' hl]
      | untagged =>
        simp only [wellFormed] at hW
        have hc := hcnt hW rfl
        simp only [encodeValue, Except.ok.injEq] at hE
        subst hE
        intro rest
        simp [decodeValue, byteLen, hc, valueLen, wireForm]
      | sizeof x =>
        simp only [wellFormed] at hW
        have hc := hcnt hW rfl
        simp only [encodeValue, Except.ok.injEq] at hE
        subst hE
        intro rest
        simp [decodeValue, byteLen, hc, valueLen, wireForm]
    | int _ => simp [encodeValue] at hE
    | struct _ => simp [encodeValue] at hE
    | list _ => simp [encodeValue] at hE
  | .struct name fs, tag, counted, cnt, v, b, hW, hE, hcnt => by
    cases v with
    | struct vs =>
      simp only [wellFormed, Bool.and_eq_true, decide_eq_true_eq] at hW
      simp only [encodeValue] at hE
      intro rest
      have hd := decode_encodeFields e (fun x => arrayLen x fs vs) fs vs [] [] b
        hW.2 hE (arrayLen_of_mem_zip fs vs hW.1) (by simp) rest
      simp only [decodeValue, hd, wireForm]
    | int _ => simp [encodeValue] at hE
    | bytes _ => simp [encodeValue] at hE
    | list _ => simp [encodeValue] at hE
  | .slice t, tag, counted, cnt, v, b, hW, hE, hcnt => by
    cases v with
    | list es =>
      simp only [wellFormed, Bool.and_eq_true] at hW
      have hc := hcnt hW.1 rfl
      simp only [encodeValue] at hE
      intro rest
      have hd := encodeAll_decodeN_map (encodeValue e t .untagged)
        (decodeValue e t .untagged none) (wireForm t .untagged) es
        (fun v _ b hb => decode_encodeValue e t .untagged false none v b hW.2 hb (by simp))
        b hE rest
      simp only [decodeValue, hc, valueLen, hd, wireForm]
    | int _ => simp [encodeValue] at hE
    | bytes _ => simp [encodeValue] at hE
    | struct _ => simp [encodeValue] at hE
theorem decode_encodeFields (e : Endian) (lens : String → Option Nat) :
    ∀ (fs : List StructField) (vs : List Value) (cn : List String)
      (counts : List (String × Nat)) (bs : List Byte),
    wellFormedFields cn fs = true → encodeFields e lens fs vs = .ok bs →
    (∀ p ∈ fs.zip vs, lens p.1.name = valueLen p.2) →
    (∀ x ∈ cn, countFor x counts = lens x) →
    ∀ rest, decodeFields e counts fs (bs ++ rest) = .ok (wireFormFields lens fs vs, rest)
  | [], vs, cn, counts, bs, hW, hE, hA, hI => by
    cases vs with
    | nil =>
      simp only [encodeFields, Except.ok.injEq] at hE
      subst hE
      intro rest
      simp [decodeFields, wireFormFields]
    | cons _ _ => simp [encodeFields] at hE
  | .mk name t tag :: fs, vs, cn, counts, bs, hW, hE, hA, hI => by
    cases vs with
    | nil => simp [encodeFields] at hE
    | cons v vs =>
      simp only [wellFormedFields, Bool.and_eq_true] at hW
      have hAhead : lens name = valueLen v := hA (.mk name t tag, v) (by simp)
      have hArest : ∀ p ∈ fs.zip vs, lens p.1.name = valueLen p.2 :=
        fun p hp => hA p (by simp [hp])
      rw [encodeFields_cons_eq] at hE
      cases hw : wireValue tag lens v with
      | none => simp [hw] at hE
      | some w =>
        cases hb : encodeValue e t tag w with
        | error err => simp [hw, hb] at hE
        | ok b =>
          cases hbs : encodeFields e lens fs vs with
          | error err => simp [hw, hb, hbs] at hE
          | ok bs2 =>
            simp only [hw, hb, hbs, Except.ok.injEq] at hE
            subst hE
            have hhead : ∀ rest, decodeValue e t tag (countFor name counts) (b ++ rest) =
                .ok (wireForm t tag w, rest) := by
              refine decode_encodeValue e t tag (decide (name ∈ cn)) (countFor name counts)
                w b hW.1 hb ?_
              intro h1 h2
              cases tag with
              | sizeof x =>
                obtain ⟨k, _, hwk⟩ := wireValue_sizeof x lens v w hw
                subst hwk
                cases t <;> simp [isCountedArray, encodeValue] at h2 hb
              | untagged =>
                simp only [wireValue, Option.some.injEq] at hw
                subst hw
                rw [hI name (by simpa using h1)]
                exact hAhead
              | array n =>
                simp only [wireValue, Option.some.injEq] at hw
                subst hw
                rw [hI name (by simpa using h1)]
                exact hAhead
            have hinv : ∀ y ∈ governs tag t cn,
                countFor y (noteCount tag (wireForm t tag w) counts) = lens y := by
              cases tag with
              | untagged => simpa [governs, noteCount] using hI
              | array n => simpa [governs, noteCount] using hI
              | sizeof x =>
                obtain ⟨k, hk, hwk⟩ := wireValue_sizeof x lens v w hw
                subst hwk
                cases t with
                | scalar k0 =>
                  intro y hy
                  simp only [governs, List.mem_cons] at hy
                  simp only [wireForm, noteCount, countFor, Int.toNat_ofNat]
                  by_cases hxy : x = y
                  · subst hxy
                    simp [hk]
                  · rw [if_neg hxy]
                    rcases hy with hy | hy
                    · exact absurd hy.symm hxy
                    · exact hI y hy
                | byteSlice => simp [encodeValue] at hb
                | struct _ _ => simp [encodeValue] at hb
                | slice _ => simp [encodeValue] at hb
            have hrest := decode_encodeFields e lens fs vs (governs tag t cn)
              (noteCount tag (wireForm t tag w) counts) bs2 hW.2 hbs hArest hinv
            intro rest
            simp only [decodeFields, List.append_assoc, hhead, hrest, wireFormFields, hw]
end

theorem encodeAll_ok (f : Value → Except CodecError (List Byte)) (es : List Value)
    (h : ∀ v ∈ es, ∃ b, f v = .ok b) : ∃ bs, encodeAll f es = .ok bs := by
  induction es with
  | nil => exact ⟨[], rfl⟩
  | cons v vs ih =>
    obtain ⟨b, hb⟩ := h v (List.mem_cons_self _ _)
    obtain ⟨bs, hbs⟩ := ih (fun w hw => h w (List.mem_cons_of_mem _ hw))
    exact ⟨b ++ bs, by simp [encodeAll, hb, hbs]⟩

theorem minValue_nonpos (k : ScalarKind) : k.minValue ≤ 0 := by
  cases k <;> simp [ScalarKind.minValue]

mutual
theorem encodeValue_ok (e : Endian) : ∀ (t : GoType) (tag : StrucTag) (v : Value),
    hasType t v = true → countsFit t v = true → ∃ b, encodeValue e t tag v = .ok b
  | .scalar k, tag, v, hT, hF => by
    cases v with
    | int n =>
      simp only [hasType, decide_eq_true_eq] at hT
      exact ⟨_, by rw [encodeValue_scalar_eq, encodeScalar_ok e k n hT]⟩
    | bytes _ => simp [hasType] at hT
    | struct _ => simp [hasType] at hT
    | list _ => simp [hasType] at hT
  | .byteSlice, tag, v, hT, hF => by
    cases v with
    | bytes s => cases tag <;> simp [encodeValue]
    | int _ => simp [hasType] at hT
    | struct _ => simp [hasType] at hT
    | list _ => simp [hasType] at hT
  | .struct name fs, tag, v, hT, hF => by
    cases v with
    | struct vs =>
      simp only [hasType] at hT
      simp only [countsFit] at hF
      obtain ⟨b, hb⟩ := encodeFields_ok e (fun x => arrayLen x fs vs) fs vs hT hF
      exact ⟨b, by simp only [encodeValue, hb]⟩
    | int _ => simp [hasType] at hT
    | bytes _ => simp [hasType] at hT
    | list _ => simp [hasType] at hT
  | .slice t, tag, v, hT, hF => by
    cases v with
    | list es =>
      simp only [hasType, List.all_eq_true] at hT
      simp only [countsFit, List.all_eq_true] at hF
      obtain ⟨b, hb⟩ := encodeAll_ok (encodeValue e t .untagged) es
        (fun v hv => encodeValue_ok e t .untagged v (hT v hv) (hF v hv))
      exact ⟨b, by simp only [encodeValue, hb]⟩
    | int _ => simp [hasType] at hT
    | bytes _ => simp [hasType] at hT
    | struct _ => simp [hasType] at hT
theorem encodeFields_ok (e : Endian) (lens : String → Option Nat) :
    ∀ (fs : List StructField) (vs : List Value),
    hasTypeFields fs vs = true → countsFitFields lens fs vs = true →
    ∃ b, encodeFields e lens fs vs = .ok b
  | [], vs, hT, hF => by
    cases vs with
    | nil => exact ⟨[], by simp [encodeFields]⟩
    | cons _ _ => simp [hasTypeFields] at hT
  | .mk name t tag :: fs, vs, hT, hF => by
    cases vs with
    | nil => simp [hasTypeFields] at hT
    | cons v vs =>
      simp only [hasTypeFields, Bool.and_eq_true] at hT
      simp only [countsFitFields, Bool.and_eq_true] at hF
      obtain ⟨bs, hbs⟩ := encodeFields_ok e lens fs vs hT.2 hF.2
      have hhead : ∃ w b, wireValue tag lens v = some w ∧ encodeValue e t tag w = .ok b := by
        cases tag with
        | untagged =>
          obtain ⟨b, hb⟩ := encodeValue_ok e t .untagged v hT.1 hF.1
          exact ⟨v, b, rfl, hb⟩
        | array n =>
          obtain ⟨b, hb⟩ := encodeValue_ok e t (.array n) v hT.1 hF.1
          exact ⟨v, b, rfl, hb⟩
        | sizeof x =>
          have h1 := hF.1
          cases t with
          | scalar k =>
            cases hl : lens x with
            | none => simp [hl] at h1
            | some n =>
              simp only [hl, decide_eq_true_eq] at h1
              refine ⟨.int n, toWire e k.width (((n : Nat) : Int) % (256 : Int) ^ k.width).toNat,
                by simp only [wireValue, hl], ?_⟩
              rw [encodeValue_scalar_eq, encodeScalar_ok e k n
                ⟨le_trans (minValue_nonpos k) (Int.ofNat_nonneg n), h1⟩]
          | byteSlice => simp at h1
          | struct _ _ => simp at h1
          | slice _ => simp at h1
      obtain ⟨w, b, hw, hb⟩ := hhead
      exact ⟨b ++ bs, by rw [encodeFields_cons_eq]; simp only [hw, hb, hbs]⟩
end

theorem agreeAll_map (p : Value → Value → Bool) (g : Value → Value) (es : List Value)
    (h : ∀ v ∈ es, p v (g v) = true) : agreeAll p es (es.map g) = true := by
  induction es with
  | nil => rfl
  | cons v vs ih =>
    simp only [List.map_cons, agreeAll, Bool.and_eq_true]
    exact ⟨h v (List.mem_cons_self _ _), ih (fun w hw => h w (List.mem_cons_of_mem _ hw))⟩

theorem encodeAll_ok_mem (f : Value → Except CodecError (List Byte)) :
    ∀ (es : List Value) (bs : List Byte), encodeAll f es = .ok bs →
      ∀ v ∈ es, ∃ b, f v = .ok b
  | [], _, _, v, hv => by simp at hv
  | u :: us, bs, h, v, hv => by
    simp only [encodeAll] at h
    cases hf : f u with
    | error err => simp [hf] at h
    | ok b =>
      cases hr : encodeAll f us with
      | error err => simp [hf, hr] at h
      | ok bs2 =>
        rw [List.mem_cons] at hv
        rcases hv with hv | hv
        · subst hv
          exact ⟨b, hf⟩
        · exact encodeAll_ok_mem f us bs2 hr v hv

mutual
theorem countsAgree_wireForm (e : Endian) : ∀ (t : GoType) (tag : StrucTag) (v : Value)
    (b : List Byte), encodeValue e t tag v = .ok b →
    countsAgree t v (wireForm t tag v) = true
  | .scalar k, tag, v, b, hE => by simp only [countsAgree]
  | .byteSlice, tag, v, b, hE => by simp only [countsAgree]
  | .struct name fs, tag, v, b, hE => by
    cases v with
    | struct vs =>
      simp only [encodeValue] at hE
      simp only [wireForm, countsAgree]
      exact countsAgreeFields_wireForm e (fun x => arrayLen x fs vs) fs vs b hE
    | int _ => simp [encodeValue] at hE
    | bytes _ => simp [encodeValue] at hE
    | list _ => simp [encodeValue] at hE
  | .slice t, tag, v, b, hE => by
    cases v with
    | list es =>
      simp only [encodeValue] at hE
      simp only [wireForm, countsAgree]
      refine agreeAll_map (countsAgree t) (wireForm t .untagged) es (fun v hv => ?_)
      obtain ⟨b1, hb1⟩ := encodeAll_ok_mem (encodeValue e t .untagged) es b hE v hv
      exact countsAgree_wireForm e t .untagged v b1 hb1
    | int _ => simp [encodeValue] at hE
    | bytes _ => simp [encodeValue] at hE
    | struct _ => simp [encodeValue] at hE
theorem countsAgreeFields_wireForm (e : Endian) (lens : String → Option Nat) :
    ∀ (fs : List StructField) (vs : List Value) (bs : List Byte),
    encodeFields e lens fs vs = .ok bs →
    countsAgreeFields lens fs vs (wireFormFields lens fs vs) = true
  | [], vs, bs, hE => by
    cases vs with
    | nil => simp [countsAgreeFields, wireFormFields]
    | cons _ _ => simp [encodeFields] at hE
  | .mk name t tag :: fs, vs, bs, hE => by
    cases vs with
    | nil => simp [encodeFields] at hE
    | cons v vs =>
      rw [encodeFields_cons_eq] at hE
      cases hw : wireValue tag lens v with
      | none => simp [hw] at hE
      | some w =>
        cases hb : encodeValue e t tag w with
        | error err => simp [hw, hb] at hE
        | ok b =>
          cases hbs : encodeFields e lens fs vs with
          | error err => simp [hw, hb, hbs] at hE
          | ok bs2 =>
            have hrest := countsAgreeFields_wireForm e lens fs vs bs2 hbs
            simp only [wireFormFields, hw, countsAgreeFields, Bool.and_eq_true]
            refine ⟨?_, hrest⟩
            cases tag with
            | untagged =>
              simp only [wireValue, Option.some.injEq] at hw
              subst hw
              exact countsAgree_wireForm e t .untagged v b hb
            | array n =>
              simp only [wireValue, Option.some.injEq] at hw
              subst hw
              exact countsAgree_wireForm e t (.array n) v b hb
            | sizeof x =>
              obtain ⟨k, hk, hwk⟩ := wireValue_sizeof x lens v w hw
              subst hwk
              cases t with
              | scalar k0 => simp [wireForm, hk]
              | byteSlice => simp [encodeValue] at hb
              | struct _ _ => simp [encodeValue] at hb
              | slice _ => simp [encodeValue] at hb
end

theorem countsAgreeFields_mem (lens : String → Option Nat) :
    ∀ (fs : List StructField) (vs ws : List Value),
    countsAgreeFields lens fs vs ws = true →
    ∀ p ∈ fs.zip ws, ∀ x, p.1.tag = .sizeof x → ∃ k : Nat, lens x = some k ∧ p.2 = .int k
  | [], _, _, _, p, hp => by simp at hp
  | .mk name t tag :: fs, [], ws, h, _, _ => by simp [countsAgreeFields] at h
  | .mk name t tag :: fs, _ :: _, [], h, _, _ => by simp [countsAgreeFields] at h
  | .mk name t tag :: fs, v :: vs, w :: ws, h, p, hp => by
    simp only [countsAgreeFields, Bool.and_eq_true] at h
    rw [List.zip_cons_cons, List.mem_cons] at hp
    rcases hp with hp | hp
    · subst hp
      intro x hx
      simp only [StructField.tag] at hx
      subst hx
      have h1 := h.1
      cases w with
      | int n =>
        cases hl : lens x with
        | none => simp [hl] at h1
        | some k =>
          simp only [hl, decide_eq_true_eq] at h1
          exact ⟨k, rfl, by rw [h1]⟩
      | bytes _ => simp at h1
      | struct _ => simp at h1
      | list _ => simp at h1
    · exact countsAgreeFields_mem lens fs vs ws h.2 p hp

/-- C3. Counted-array consistency on encode: for every struct type and message of
the two modules (so for `DHCPLease.DomainServer`, `DHCPProxyDetails.Servers`, the
`Prefixes` and `Addresses` arrays of the DHCP6 messages, and the lease nested in
`DHCPClientDetails` and `DHCPComplEvent`) and in either byte order: every value
`v` of the type whose counted arrays fit their count fields encodes, whatever
the lengths of its byte fields and whatever its count fields hold, and the
value `w` read back from the encoding has, at every depth, every count field
equal to the number `k` of elements of its array in `v`.  For the fields of `v`
itself: each count field of `w` is the number of elements of its array in `v`. -/
theorem count_written_from_elements (e : Endian) (T : GoType)
    (hT : T ∈ dhcp.Types ++ (dhcp.AllMessages ++ memif.AllMessages).map api.Message.goType)
    (v : Value) (hty : hasType T v = true) (hfit : countsFit T v = true) :
    ∃ bs w, encodeValue e T .untagged v = .ok bs ∧
      (∀ rest, decodeValue e T .untagged none (bs ++ rest) = .ok (w, rest)) ∧
      countsAgree T v w = true ∧
      ∀ name fs vs ws, T = .struct name fs → v = .struct vs → w = .struct ws →
        ∀ p ∈ fs.zip ws, ∀ x, p.1.tag = .sizeof x →
          ∃ k : Nat, arrayLen x fs vs = some k ∧ p.2 = .int k := by
  obtain ⟨bs, hbs⟩ := encodeValue_ok e T .untagged v hty hfit
  have hd := decode_encodeValue e T .untagged false none v bs (wellFormed_allStructs T hT) hbs
    (by simp)
  have hc := countsAgree_wireForm e T .untagged v bs hbs
  refine ⟨bs, wireForm T .untagged v, hbs, hd, hc, ?_⟩
  intro name fs vs ws h1 h2 h3
  subst h1 h2
  rw [h3] at hc
  simp only [countsAgree] at hc
  exact countsAgreeFields_mem (fun x => arrayLen x fs vs) fs vs ws hc

set_option maxRecDepth 4096 in
theorem count_written_from_elements_witness :
    (hasType dhcp.DHCPProxyDetails.goType
        (.struct [.int 1, .int 2, .int 3, .int 4, .bytes [], .int 1,
          .bytes (List.replicate 16 9), .int 77,
          .list [.struct [.int 5, .bytes (List.replicate 16 1)],
                 .struct [.int 6, .bytes (List.replicate 16 2)]]]) = true ∧
      countsFit dhcp.DHCPProxyDetails.goType
        (.struct [.int 1, .int 2, .int 3, .int 4, .bytes [], .int 1,
          .bytes (List.replicate 16 9), .int 77,
          .list [.struct [.int 5, .bytes (List.replicate 16 1)],
                 .struct [.int 6, .bytes (List.replicate 16 2)]]]) = true ∧
      ∃ bs w, encodeValue .big dhcp.DHCPProxyDetails.goType .untagged
          (.struct [.int 1, .int 2, .int 3, .int 4, .bytes [], .int 1,
            .bytes (List.replicate 16 9), .int 77,
            .list [.struct [.int 5, .bytes (List.replicate 16 1)],
                   .struct [.int 6, .bytes (List.replicate 16 2)]]]) = .ok bs ∧
        (∀ rest, decodeValue .big dhcp.DHCPProxyDetails.goType .untagged none (bs ++ rest) =
          .ok (w, rest)) ∧
        countsAgree dhcp.DHCPProxyDetails.goType
          (.struct [.int 1, .int 2, .int 3, .int 4, .bytes [], .int 1,
            .bytes (List.replicate 16 9), .int 77,
            .list [.struct [.int 5, .bytes (List.replicate 16 1)],
                   .struct [.int 6, .bytes (List.replicate 16 2)]]]) w = true ∧
        ∀ name fs vs ws, dhcp.DHCPProxyDetails.goType = .struct name fs →
          (.struct [.int 1, .int 2, .int 3, .int 4, .bytes [], .int 1,
            .bytes (List.replicate 16 9), .int 77,
            .list [.struct [.int 5, .bytes (List.replicate 16 1)],
                   .struct [.int 6, .bytes (List.replicate 16 2)]]] : Value) = .struct vs →
          w = .struct ws →
          ∀ p ∈ fs.zip ws, ∀ x, p.1.tag = .sizeof x →
            ∃ k : Nat, arrayLen x fs vs = some k ∧ p.2 = .int k) ∧
    (hasType dhcp.DHCPComplEvent.goType
        (.struct [.int 42, .struct [.int 1, .int 2, .bytes [104, 111, 115, 116], .int 0,
          .int 24, .bytes [10, 0, 0, 5], .bytes [10, 0, 0, 1], .bytes [1, 2, 3, 4, 5, 6],
          .int 200,
          .list [.struct [.bytes [8, 8, 8, 8]], .struct [.bytes [1, 1, 1, 1]],
                 .struct [.bytes []]]]]) = true ∧
      countsFit dhcp.DHCPComplEvent.goType
        (.struct [.int 42, .struct [.int 1, .int 2, .bytes [104, 111, 115, 116], .int 0,
          .int 24, .bytes [10, 0, 0, 5], .bytes [10, 0, 0, 1], .bytes [1, 2, 3, 4, 5, 6],
          .int 200,
          .list [.struct [.bytes [8, 8, 8, 8]], .struct [.bytes [1, 1, 1, 1]],
                 .struct [.bytes []]]]]) = true ∧
      ∃ bs w, encodeValue .little dhcp.DHCPComplEvent.goType .untagged
          (.struct [.int 42, .struct [.int 1, .int 2, .bytes [104, 111, 115, 116], .int 0,
            .int 24, .bytes [10, 0, 0, 5], .bytes [10, 0, 0, 1], .bytes [1, 2, 3, 4, 5, 6],
            .int 200,
            .list [.struct [.bytes [8, 8, 8, 8]], .struct [.bytes [1, 1, 1, 1]],
                   .struct [.bytes []]]]]) = .ok bs ∧
        (∀ rest, decodeValue .little dhcp.DHCPComplEvent.goType .untagged none (bs ++ rest) =
          .ok (w, rest)) ∧
        countsAgree dhcp.DHCPComplEvent.goType
          (.struct [.int 42, .struct [.int 1, .int 2, .bytes [104, 111, 115, 116], .int 0,
            .int 24, .bytes [10, 0, 0, 5], .bytes [10, 0, 0, 1], .bytes [1, 2, 3, 4, 5, 6],
            .int 200,
            .list [.struct [.bytes [8, 8, 8, 8]], .struct [.bytes [1, 1, 1, 1]],
                   .struct [.bytes []]]]]) w = true ∧
        ∀ name fs vs ws, dhcp.DHCPComplEvent.goType = .struct name fs →
          (.struct [.int 42, .struct [.int 1, .int 2, .bytes [104, 111, 115, 116], .int 0,
            .int 24, .bytes [10, 0, 0, 5], .bytes [10, 0, 0, 1], .bytes [1, 2, 3, 4, 5, 6],
            .int 200,
            .list [.struct [.bytes [8, 8, 8, 8]], .struct [.bytes [1, 1, 1, 1]],
                   .struct [.bytes []]]]] : Value) = .struct vs →
          w = .struct ws →
          ∀ p ∈ fs.zip ws, ∀ x, p.1.tag = .sizeof x →
            ∃ k : Nat, arrayLen x fs vs = some k ∧ p.2 = .int k) :=
  ⟨⟨by decide, by decide,
      count_written_from_elements .big dhcp.DHCPProxyDetails.goType (by decide) _
        (by decide) (by decide)⟩,
    ⟨by decide, by decide,
      count_written_from_elements .little dhcp.DHCPComplEvent.goType (by decide) _
        (by decide) (by decide)⟩⟩

set_option maxRecDepth 8192 in
/-- A `DHCPProxyDetails` value with an empty `VssVPNAsciiID`, the count field
`Count` holding 77 and two servers: the encoding has 200 bytes, the byte of the
count field (offset 159) is 2, and the value read back holds 2 in `Count`. -/
theorem count_written_DHCPProxyDetails_example :
    (match encodeValue .big dhcp.DHCPProxyDetails.goType .untagged
        (.struct [.int 1, .int 2, .int 3, .int 4, .bytes [], .int 1,
          .bytes (List.replicate 16 9), .int 77,
          .list [.struct [.int 5, .bytes (List.replicate 16 1)],
                 .struct [.int 6, .bytes (List.replicate 16 2)]]]) with
      | .ok bs =>
        some (bs.length, bs.get? 159, decodeValue .big dhcp.DHCPProxyDetails.goType .untagged none bs)
      | .error _ => none) =
    some (200, some 2,
      .ok (.struct [.int 1, .int 2, .int 3, .int 4, .bytes (List.replicate 129 0), .int 1,
          .bytes (List.replicate 16 9), .int 2,
          .list [.struct [.int 5, .bytes (List.replicate 16 1)],
                 .struct [.int 6, .bytes (List.replicate 16 2)]]], [])) := by
  rfl

set_option maxRecDepth 8192 in
/-- A `DHCPComplEvent` value whose nested lease holds 200 in `Count` and three
domain servers with short addresses: the value read back holds 3 in the `Count`
of the lease. -/
theorem count_written_DHCPComplEvent_example :
    (match encodeValue .little dhcp.DHCPComplEvent.goType .untagged
        (.struct [.int 42, .struct [.int 1, .int 2, .bytes [104, 111, 115, 116], .int 0,
          .int 24, .bytes [10, 0, 0, 5], .bytes [10, 0, 0, 1], .bytes [1, 2, 3, 4, 5, 6],
          .int 200,
          .list [.struct [.bytes [8, 8, 8, 8]], .struct [.bytes [1, 1, 1, 1]],
                 .struct [.bytes []]]]]) with
      | .ok bs =>
        some (bs.length, bs.get? 113,
          decodeValue .little dhcp.DHCPComplEvent.goType .untagged none bs)
      | .error _ => none) =
    some (162, some 3,
      .ok (.struct [.int 42, .struct [.int 1, .int 2,
          .bytes ([104, 111, 115, 116] ++ List.replicate 60 0), .int 0,
          .int 24, .bytes ([10, 0, 0, 5] ++ List.replicate 12 0),
          .bytes ([10, 0, 0, 1] ++ List.replicate 12 0), .bytes [1, 2, 3, 4, 5, 6],
          .int 3,
          .list [.struct [.bytes ([8, 8, 8, 8] ++ List.replicate 12 0)],
                 .struct [.bytes ([1, 1, 1, 1] ++ List.replicate 12 0)],
                 .struct [.bytes (List.replicate 16 0)]]]], [])) := by
  rfl

end codec
